import Mathlib

/-!
# Verification of the room/session coordination engine of `server.js`

This file is a shallow embedding of the realtime chat coordinator found in
`src/server.js` (the full variant with room ownership, the 200-message
retention limit and the owner-only `clearChat` capability, i.e. the code
around `chatState`, `joinRoom`, `leaveRoom` and the socket event handlers).

Conventions of the embedding:
* JavaScript objects become Lean structures; the room registry (a JS object
  keyed by room id) becomes an association list `List (String × Room)`.
* `null`/`undefined` string fields become `Option String`; a missing or empty
  payload field is modelled by `""` (both are falsy in the JS truthiness
  checks the code performs).
* `Date.now()` is modelled by a logical clock threaded through the server
  state and bumped once per processed event.
* Socket emissions (`socket.emit`, `socket.to(room).emit`, `io.to(room).emit`,
  `io.emit`) are collected in a returned list of `Emit` values.
* Per-socket fields (`socket.roomId`, `socket.username`) become a total
  function from socket id to a `Session` record, and the `activeUsers` Map
  becomes a total function to `Option ActiveUser`.
-/

/-- A member record pushed into `room.users` by `joinRoom`
    (`{ id, username, joinedAt, isOwner }`). -/
structure User where
  id : String
  username : String
  joinedAt : Nat
  isOwner : Bool
deriving Repr, DecidableEq

/-- A chat message object built by the `sendMessage` handler
    (`{ id, username, message, timestamp, userId, type }`). -/
structure Message where
  id : String
  username : String
  message : String
  timestamp : Nat
  userId : String
  type : String
deriving Repr, DecidableEq

/-- A room of `chatState.rooms`
    (`{ name, users, messages, createdAt, owner }`). -/
structure Room where
  name : String
  users : List User
  messages : List Message
  createdAt : Nat
  owner : Option String
deriving Repr, DecidableEq

/-- A value of the `activeUsers` Map (`{ username, roomId }`). -/
structure ActiveUser where
  username : String
  roomId : String
deriving Repr, DecidableEq

/-- The shared mutable state `chatState`: the room registry and the
    `activeUsers` Map (modelled as a total function to `Option`). -/
structure ChatState where
  rooms : List (String × Room)
  activeUsers : String → Option ActiveUser

/-- The per-socket fields `socket.roomId` and `socket.username`. -/
structure Session where
  roomId : Option String
  username : Option String
deriving Repr, DecidableEq

/-- The whole server state: `chatState`, the per-socket fields of every
    socket, and the logical clock standing in for `Date.now()`. -/
structure ServerState where
  chat : ChatState
  sessions : String → Session
  clock : Nat

/-- `chatState.rooms[roomId]`: first association-list entry for the key. -/
def lookupRoom (rs : List (String × Room)) (k : String) : Option Room :=
  (rs.find? (fun p => p.1 == k)).map Prod.snd

/-- Update the room stored under key `k` in place, leaving every other entry
    untouched (the JS code mutates `chatState.rooms[roomId]` in place). -/
def mapRoom (rs : List (String × Room)) (k : String) (f : Room → Room) :
    List (String × Room) :=
  rs.map (fun p => (p.1, if p.1 == k then f p.2 else p.2))

/-- `findIndex(user => user.id === uid)` followed by `splice(index, 1)`:
    remove the first user with the given id, if any. -/
def removeFirstById : List User → String → List User
  | [], _ => []
  | u :: us, uid => if u.id == uid then us else u :: removeFirstById us uid

/-- `users.find(user => user.id === uid)`. -/
def findById (us : List User) (uid : String) : Option User :=
  us.find? (fun u => u.id == uid)

/-- The sweep in `joinRoom`: `Object.keys(chatState.rooms).forEach(...)`
    removing the user from every room's member list. -/
def removeFromAllRooms (rs : List (String × Room)) (uid : String) :
    List (String × Room) :=
  rs.map (fun p => (p.1, { p.2 with users := removeFirstById p.2.users uid }))

/-- The member record `joinRoom` constructs, with the ownership assignment of
    its `if`/`else if`: `isOwner` is true when the room has no owner (the
    joiner becomes owner) or when the stored owner id equals this connection
    id (rejoin case); otherwise false. -/
def joinUser (room0 : Room) (userId username : String) (now : Nat) : User :=
  { id := userId, username := username, joinedAt := now,
    isOwner := room0.owner.isNone || room0.owner == some userId }

/-- The owner assignment of `joinRoom`: when the target room (whose looked-up
    value is `room0`) has no owner, store the joining connection id as the
    room's owner. -/
def ownerAssignRooms (rs : List (String × Room)) (room0 : Room)
    (userId roomId : String) : List (String × Room) :=
  if room0.owner.isNone then
    mapRoom rs roomId (fun r => { r with owner := some userId })
  else rs

/-- The registry mutation of `joinRoom` once the target room was found:
    set the owner when the room had none, remove the user from every room,
    then append the new member record to the target room. -/
def joinRooms (rs : List (String × Room)) (room0 : Room)
    (userId username roomId : String) (now : Nat) : List (String × Room) :=
  mapRoom (removeFromAllRooms (ownerAssignRooms rs room0 userId roomId) userId)
    roomId
    (fun r => { r with users := r.users ++ [joinUser room0 userId username now] })

/-- `joinRoom(userId, username, roomId)` from `server.js`: returns `false` if
    the room does not exist; otherwise builds the member record, assigns
    ownership (owner if the room has none, restored owner on rejoin), removes
    the user from every room, appends the member to the target room and
    registers the user in `activeUsers`. -/
def joinRoom (st : ChatState) (userId username roomId : String) (now : Nat) :
    Bool × ChatState :=
  match lookupRoom st.rooms roomId with
  | none => (false, st)
  | some room0 =>
    (true,
     { rooms := joinRooms st.rooms room0 userId username roomId now,
       activeUsers := fun x =>
         if x == userId then some { username := username, roomId := roomId }
         else st.activeUsers x })

/-- The mutation `leaveRoom` performs on the room being left: remove the
    first member with the given id, then ownership succession — if the
    departing user was the stored owner, the head of the remaining member
    list becomes owner with its `isOwner` flag set true, or the owner becomes
    `null` when no members remain. -/
def departedRoom (room : Room) (userId : String) : Room :=
  let users1 := removeFirstById room.users userId
  if room.owner == some userId then
    match users1 with
    | [] => { room with users := [], owner := none }
    | u :: rest =>
      { room with users := { u with isOwner := true } :: rest,
                  owner := some u.id }
  else { room with users := users1 }

/-- `leaveRoom(userId, roomId)` from `server.js`: no-op returning `null` when
    the room or the member is absent; otherwise removes the member via
    `departedRoom`, deletes the `activeUsers` entry and returns the departed
    member record. -/
def leaveRoom (st : ChatState) (userId roomId : String) :
    ChatState × Option User :=
  match lookupRoom st.rooms roomId with
  | none => (st, none)
  | some room =>
    match findById room.users userId with
    | none => (st, none)
    | some user =>
      ({ rooms := mapRoom st.rooms roomId (fun _ => departedRoom room userId),
         activeUsers := fun x => if x == userId then none else st.activeUsers x },
       some user)

/-- The audience of one socket emission. -/
inductive Target where
  | sender (sid : String)
  | roomExceptSender (roomId sid : String)
  | room (roomId : String)
  | all
deriving Repr, DecidableEq

/-- One emission: audience, event name, and a payload digest (the error text,
    the message body, or the acting username, depending on the event). -/
structure Emit where
  target : Target
  event : String
  info : String
deriving Repr, DecidableEq

/-- JavaScript `String.prototype.trim()` on the underlying character list:
    remove leading and trailing whitespace. -/
def jsTrim (s : String) : String :=
  ⟨((s.data.dropWhile Char.isWhitespace).reverse.dropWhile
      Char.isWhitespace).reverse⟩

/-- The retention limit of the `sendMessage` handler
    (`// Keep only last 200 messages per room`). -/
def messageLimit : Nat := 200

/-- `messages.push(msg)` followed by
    `if (messages.length > 200) messages = messages.slice(-200)`. -/
def appendBounded (l : List Message) (m : Message) : List Message :=
  let l1 := l ++ [m]
  if l1.length > messageLimit then l1.drop (l1.length - messageLimit) else l1

/-- The last `n` elements of a list, in order (`Array.prototype.slice(-n)`). -/
def takeLast (l : List α) (n : Nat) : List α := l.drop (l.length - n)

/-- The `joinRoom` socket handler: validates the fields, implicitly leaves the
    previous room (broadcasting `userLeftRoom`), calls `joinRoom`, and on
    success records the session and broadcasts; on failure it emits an
    `error` to the sender only. -/
def handleJoinRoom (st : ServerState) (sid username roomId : String) :
    ServerState × List Emit :=
  if username == "" || roomId == "" then
    (st, [⟨Target.sender sid, "error", "Username and room ID are required"⟩])
  else
    let sess := st.sessions sid
    let leaveStep : ChatState × List Emit :=
      match sess.roomId with
      | some prev =>
        let res := leaveRoom st.chat sid prev
        match res.2 with
        | some leftUser =>
          (res.1, [⟨Target.roomExceptSender prev sid, "userLeftRoom", leftUser.username⟩])
        | none => (res.1, [])
      | none => (st.chat, [])
    let joined := joinRoom leaveStep.1 sid username roomId st.clock
    if joined.1 then
      ({ chat := joined.2,
         sessions := fun x =>
           if x == sid then { roomId := some roomId, username := some username }
           else st.sessions x,
         clock := st.clock },
       leaveStep.2 ++
         [⟨Target.sender sid, "roomJoined", username⟩,
          ⟨Target.roomExceptSender roomId sid, "userJoinedRoom", username⟩])
    else
      ({ st with chat := leaveStep.1 },
       leaveStep.2 ++ [⟨Target.sender sid, "error", "Room not found"⟩])

/-- The `messageObj` built by the `sendMessage` handler: fresh time-derived
    id, the supplied username, the trimmed body, timestamp, the sender's
    connection id and kind `user`. -/
def sendMessageObj (sid username message : String) (now : Nat) : Message :=
  { id := toString now, username := username, message := jsTrim message,
    timestamp := now, userId := sid, type := "user" }

/-- The `sendMessage` socket handler: rejects missing fields and unknown rooms
    with an `error` to the sender; otherwise builds the message object with a
    trimmed body, appends it under the 200-message retention limit and
    broadcasts `newMessage` to the room. -/
def handleSendMessage (st : ServerState) (sid username message roomId : String) :
    ServerState × List Emit :=
  if username == "" || message == "" || roomId == "" then
    (st, [⟨Target.sender sid, "error", "Missing required fields"⟩])
  else
    match lookupRoom st.chat.rooms roomId with
    | none => (st, [⟨Target.sender sid, "error", "Room not found"⟩])
    | some _ =>
      let msg : Message := sendMessageObj sid username message st.clock
      let rooms1 := mapRoom st.chat.rooms roomId
        (fun r => { r with messages := appendBounded r.messages msg })
      ({ st with chat := { st.chat with rooms := rooms1 } },
       [⟨Target.room roomId, "newMessage", msg.message⟩])

/-- The `typing` handler: pure broadcast pass-through, no state change. -/
def handleTyping (st : ServerState) (sid username roomId : String) :
    ServerState × List Emit :=
  if roomId != "" && (lookupRoom st.chat.rooms roomId).isSome then
    (st, [⟨Target.roomExceptSender roomId sid, "userTyping", username⟩])
  else (st, [])

/-- The `stopTyping` handler: pure broadcast pass-through, no state change. -/
def handleStopTyping (st : ServerState) (sid roomId : String) :
    ServerState × List Emit :=
  if roomId != "" && (lookupRoom st.chat.rooms roomId).isSome then
    (st, [⟨Target.roomExceptSender roomId sid, "userStopTyping", ""⟩])
  else (st, [])

/-- The `getRooms` handler: replies with the room summaries, no state change. -/
def handleGetRooms (st : ServerState) (sid : String) : ServerState × List Emit :=
  (st, [⟨Target.sender sid, "availableRooms", ""⟩])

/-- The `clearChat` socket handler: unknown room yields an `error` to the
    sender; a sender that is not the stored owner yields the Forbidden error
    to the sender only; the owner empties the message log and `chatCleared`
    is broadcast to the room. -/
def handleClearChat (st : ServerState) (sid roomId : String) :
    ServerState × List Emit :=
  if roomId == "" then
    (st, [⟨Target.sender sid, "error", "Room not found"⟩])
  else
    match lookupRoom st.chat.rooms roomId with
    | none => (st, [⟨Target.sender sid, "error", "Room not found"⟩])
    | some room =>
      if room.owner == some sid then
        let rooms1 := mapRoom st.chat.rooms roomId (fun r => { r with messages := [] })
        ({ st with chat := { st.chat with rooms := rooms1 } },
         [⟨Target.room roomId, "chatCleared", ((st.sessions sid).username).getD ""⟩])
      else
        (st, [⟨Target.sender sid, "error", "Only room owner can clear chat"⟩])

/-- The `disconnect` handler: leaves the session's current room through
    `leaveRoom`, broadcasting `userLeftRoom` when a member actually departed. -/
def handleDisconnect (st : ServerState) (sid : String) :
    ServerState × List Emit :=
  match (st.sessions sid).roomId with
  | some prev =>
    let res := leaveRoom st.chat sid prev
    match res.2 with
    | some leftUser =>
      ({ st with chat := res.1 },
       [⟨Target.roomExceptSender prev sid, "userLeftRoom", leftUser.username⟩])
    | none => ({ st with chat := res.1 }, [])
  | none => (st, [])

/-- An inbound client event, tagged with the emitting socket id. -/
inductive ClientEvent where
  | joinRoom (sid username roomId : String)
  | sendMessage (sid username message roomId : String)
  | typing (sid username roomId : String)
  | stopTyping (sid roomId : String)
  | getRooms (sid : String)
  | clearChat (sid roomId : String)
  | disconnect (sid : String)
deriving Repr, DecidableEq

/-- Dispatch one inbound event to its handler. -/
def handleEvent (st : ServerState) (e : ClientEvent) : ServerState × List Emit :=
  match e with
  | .joinRoom sid u r => handleJoinRoom st sid u r
  | .sendMessage sid u m r => handleSendMessage st sid u m r
  | .typing sid u r => handleTyping st sid u r
  | .stopTyping sid r => handleStopTyping st sid r
  | .getRooms sid => handleGetRooms st sid
  | .clearChat sid r => handleClearChat st sid r
  | .disconnect sid => handleDisconnect st sid

/-- Process one event: the clock advances (`Date.now()` is fresh per event)
    and the handler runs to completion (single-writer discipline). -/
def stepState (st : ServerState) (e : ClientEvent) : ServerState :=
  (handleEvent { st with clock := st.clock + 1 } e).1

/-- A fresh room of the initial `chatState` registry. -/
def initialRoom (nm : String) : Room :=
  { name := nm, users := [], messages := [], createdAt := 0, owner := none }

/-- The initial `chatState`: the three fixed rooms, no active users. -/
def initialChat : ChatState :=
  { rooms := [("room1", initialRoom "Room 1"),
              ("room2", initialRoom "Room 2"),
              ("room3", initialRoom "Room 3")],
    activeUsers := fun _ => none }

/-- The initial server state: fresh registry, blank sessions, clock zero. -/
def initialState : ServerState :=
  { chat := initialChat,
    sessions := fun _ => { roomId := none, username := none },
    clock := 0 }

/-- Run a sequence of inbound events from the initial state. -/
def run (es : List ClientEvent) : ServerState :=
  es.foldl stepState initialState

/-- How many times connection id `c` occurs in one member list. -/
def occursIn (us : List User) (c : String) : Nat :=
  us.countP (fun u => u.id == c)

/-- How many times connection id `c` occurs across all member lists of the
    registry. -/
def occurs (rs : List (String × Room)) (c : String) : Nat :=
  (rs.map (fun p => occursIn p.2.users c)).sum

example :
    occurs ((run [.joinRoom "A" "alice" "room1"]).chat.rooms) "A" = 1 := by
  decide

example :
    (lookupRoom (run [.joinRoom "A" "alice" "room1"]).chat.rooms "room1").map
      Room.owner = some (some "A") := by
  decide

/-! ## Basic lemmas about the list-level helpers -/

theorem removeFirstById_sublist (us : List User) (uid : String) :
    List.Sublist (removeFirstById us uid) us := by
  induction us with
  | nil => exact List.Sublist.refl _
  | cons u us ih =>
    rw [removeFirstById]
    by_cases hb : (u.id == uid) = true
    · rw [if_pos hb]; exact List.sublist_cons_self u us
    · rw [if_neg (by simp [hb])]; exact ih.cons₂ u

theorem mem_of_mem_removeFirstById {us : List User} {uid : String} {u : User}
    (h : u ∈ removeFirstById us uid) : u ∈ us :=
  (removeFirstById_sublist us uid).subset h

theorem occursIn_cons (u : User) (us : List User) (c : String) :
    occursIn (u :: us) c = occursIn us c + (if u.id == c then 1 else 0) := by
  simp [occursIn, List.countP_cons]

theorem occursIn_append (us : List User) (u : User) (c : String) :
    occursIn (us ++ [u]) c = occursIn us c + (if u.id == c then 1 else 0) := by
  simp [occursIn, List.countP_append, List.countP_cons]

theorem occursIn_removeFirstById_le (us : List User) (uid c : String) :
    occursIn (removeFirstById us uid) c ≤ occursIn us c :=
  List.Sublist.countP_le _ (removeFirstById_sublist us uid)

theorem occursIn_removeFirstById_ne {uid c : String} (h : uid ≠ c)
    (us : List User) :
    occursIn (removeFirstById us uid) c = occursIn us c := by
  induction us with
  | nil => rfl
  | cons u us ih =>
    rw [removeFirstById]
    by_cases hb : (u.id == uid) = true
    · have hu : u.id = uid := by simpa using hb
      subst hu
      have h1 : (u.id == c) = false := by simpa using h
      rw [if_pos hb, occursIn_cons, h1]
      simp
    · rw [if_neg (by simp [hb]), occursIn_cons, occursIn_cons, ih]

theorem occursIn_removeFirstById_self {us : List User} {uid : String}
    (h : occursIn us uid ≤ 1) :
    occursIn (removeFirstById us uid) uid = 0 := by
  induction us with
  | nil => rfl
  | cons u us ih =>
    rw [occursIn_cons] at h
    rw [removeFirstById]
    by_cases hb : (u.id == uid) = true
    · rw [if_pos hb]
      rw [hb] at h
      simp only [if_true] at h
      omega
    · rw [if_neg (by simp [hb]), occursIn_cons]
      have hf : (u.id == uid) = false := by simpa using hb
      rw [hf] at h ⊢
      simp only [Bool.false_eq_true, if_false, Nat.add_zero] at h ⊢
      exact ih h

theorem mem_removeFirstById_of_ne {us : List User} {uid : String} {u : User}
    (hm : u ∈ us) (hne : u.id ≠ uid) : u ∈ removeFirstById us uid := by
  induction us with
  | nil => cases hm
  | cons v us ih =>
    rw [removeFirstById]
    rcases List.mem_cons.mp hm with rfl | hm'
    · rw [if_neg (by simpa using hne)]
      exact List.mem_cons_self u _
    · by_cases hb : (v.id == uid) = true
      · rw [if_pos hb]; exact hm'
      · rw [if_neg (by simp [hb])]
        exact List.mem_cons_of_mem v (ih hm')

theorem findById_isSome_of_mem {us : List User} {uid : String} {u : User}
    (hm : u ∈ us) (hid : u.id = uid) : (findById us uid).isSome := by
  induction us with
  | nil => cases hm
  | cons v us ih =>
    rcases List.mem_cons.mp hm with rfl | hm'
    · simp [findById, List.find?_cons, hid]
    · by_cases hb : (v.id == uid) = true
      · simp [findById, List.find?_cons, hb]
      · have := ih hm'
        simpa [findById, List.find?_cons, hb] using this

/-! ## Lemmas about the room registry helpers -/

theorem mapRoom_cons (p : String × Room) (rs : List (String × Room))
    (k : String) (f : Room → Room) :
    mapRoom (p :: rs) k f
      = (p.1, if p.1 == k then f p.2 else p.2) :: mapRoom rs k f := rfl

theorem removeFromAllRooms_cons (p : String × Room) (rs : List (String × Room))
    (uid : String) :
    removeFromAllRooms (p :: rs) uid
      = (p.1, { p.2 with users := removeFirstById p.2.users uid })
          :: removeFromAllRooms rs uid := rfl

theorem lookupRoom_cons (q : String × Room) (rs : List (String × Room))
    (k : String) :
    lookupRoom (q :: rs) k = if q.1 == k then some q.2 else lookupRoom rs k := by
  by_cases hb : (q.1 == k) = true
  · rw [if_pos hb, lookupRoom,
      List.find?_cons_of_pos rs (show (fun p : String × Room => p.1 == k) q = true from hb),
      Option.map_some']
  · rw [if_neg hb, lookupRoom,
      List.find?_cons_of_neg rs (show ¬ ((fun p : String × Room => p.1 == k) q = true) from hb)]
    rfl

theorem mapRoom_keys (rs : List (String × Room)) (k : String) (f : Room → Room) :
    (mapRoom rs k f).map Prod.fst = rs.map Prod.fst := by
  induction rs with
  | nil => rfl
  | cons p rs ih => simp [mapRoom_cons, ih]

theorem removeFromAllRooms_keys (rs : List (String × Room)) (uid : String) :
    (removeFromAllRooms rs uid).map Prod.fst = rs.map Prod.fst := by
  induction rs with
  | nil => rfl
  | cons p rs ih => simp [removeFromAllRooms_cons, ih]

theorem lookupRoom_mapRoom_self (rs : List (String × Room)) (k : String)
    (f : Room → Room) :
    lookupRoom (mapRoom rs k f) k = (lookupRoom rs k).map f := by
  induction rs with
  | nil => rfl
  | cons p rs ih =>
    rw [mapRoom_cons, lookupRoom_cons, lookupRoom_cons]
    by_cases hb : (p.1 == k) = true
    · simp [hb]
    · simp [hb, ih]

theorem lookupRoom_mapRoom_ne {k' k : String} (h : k' ≠ k)
    (rs : List (String × Room)) (f : Room → Room) :
    lookupRoom (mapRoom rs k f) k' = lookupRoom rs k' := by
  induction rs with
  | nil => rfl
  | cons p rs ih =>
    rw [mapRoom_cons, lookupRoom_cons, lookupRoom_cons]
    by_cases hb' : (p.1 == k') = true
    · have hp : p.1 = k' := by simpa using hb'
      have hbk : (p.1 == k) = false := by
        rw [hp]; exact beq_eq_false_iff_ne.mpr (fun hc => h hc)
      simp [hb', hbk]
    · simp [hb', ih]

theorem lookupRoom_removeFromAllRooms (rs : List (String × Room))
    (uid k : String) :
    lookupRoom (removeFromAllRooms rs uid) k
      = (lookupRoom rs k).map
          (fun r => { r with users := removeFirstById r.users uid }) := by
  induction rs with
  | nil => rfl
  | cons p rs ih =>
    rw [removeFromAllRooms_cons, lookupRoom_cons, lookupRoom_cons]
    by_cases hb : (p.1 == k) = true
    · simp [hb]
    · simp [hb, ih]

theorem mem_of_lookupRoom {rs : List (String × Room)} {k : String} {r : Room}
    (h : lookupRoom rs k = some r) : (k, r) ∈ rs := by
  rw [lookupRoom] at h
  rcases Option.map_eq_some'.mp h with ⟨p, hp, rfl⟩
  have hmem := List.mem_of_find?_eq_some hp
  have hpred := List.find?_some hp
  have hk : p.1 = k := by simpa using hpred
  rw [show p = (k, p.2) from Prod.ext hk rfl] at hmem
  exact hmem

theorem lookupRoom_eq_of_mem {rs : List (String × Room)} {k : String} {r : Room}
    (hnd : (rs.map Prod.fst).Nodup) (h : (k, r) ∈ rs) :
    lookupRoom rs k = some r := by
  induction rs with
  | nil => cases h
  | cons p rs ih =>
    rw [List.map_cons, List.nodup_cons] at hnd
    rw [lookupRoom_cons]
    rcases List.mem_cons.mp h with rfl | h'
    · simp
    · have hk : k ∈ rs.map Prod.fst := List.mem_map.mpr ⟨(k, r), h', rfl⟩
      have hne : (p.1 == k) = false :=
        beq_eq_false_iff_ne.mpr (fun hc => hnd.1 (hc ▸ hk))
      rw [hne]
      simp only [Bool.false_eq_true, if_false]
      exact ih hnd.2 h'

theorem mem_mapRoom_elim {rs : List (String × Room)} {k0 : String}
    {f : Room → Room} {k : String} {v : Room} (h : (k, v) ∈ mapRoom rs k0 f) :
    ∃ r, (k, r) ∈ rs ∧
      ((k = k0 ∧ v = f r) ∨ (k ≠ k0 ∧ v = r)) := by
  rw [mapRoom] at h
  rcases List.mem_map.mp h with ⟨p, hp, hq⟩
  have hk : p.1 = k := congrArg Prod.fst hq
  have hv : (if p.1 == k0 then f p.2 else p.2) = v := by
    have := congrArg Prod.snd hq
    simpa using this
  by_cases hb : (p.1 == k0) = true
  · rw [if_pos hb] at hv
    refine ⟨p.2, ?_, Or.inl ⟨?_, hv.symm⟩⟩
    · rw [← hk]; simpa using hp
    · rw [← hk]; simpa using hb
  · rw [if_neg hb] at hv
    refine ⟨p.2, ?_, Or.inr ⟨?_, hv.symm⟩⟩
    · rw [← hk]; simpa using hp
    · rw [← hk]; simpa using hb

theorem mem_removeFromAllRooms_elim {rs : List (String × Room)} {uid : String}
    {k : String} {v : Room} (h : (k, v) ∈ removeFromAllRooms rs uid) :
    ∃ r, (k, r) ∈ rs
      ∧ v = { r with users := removeFirstById r.users uid } := by
  rw [removeFromAllRooms] at h
  rcases List.mem_map.mp h with ⟨p, hp, hq⟩
  have hk : p.1 = k := congrArg Prod.fst hq
  have hv : ({ p.2 with users := removeFirstById p.2.users uid } : Room) = v := by
    have := congrArg Prod.snd hq
    simpa using this
  refine ⟨p.2, ?_, hv.symm⟩
  rw [← hk]; simpa using hp

/-! ## Counting occurrences of a connection across the registry -/

theorem occurs_cons (p : String × Room) (rs : List (String × Room)) (c : String) :
    occurs (p :: rs) c = occursIn p.2.users c + occurs rs c := by
  simp [occurs]

theorem occursIn_le_occurs {rs : List (String × Room)} {q : String × Room}
    (h : q ∈ rs) (c : String) : occursIn q.2.users c ≤ occurs rs c := by
  induction rs with
  | nil => cases h
  | cons p rs ih =>
    rw [occurs_cons]
    rcases List.mem_cons.mp h with rfl | h'
    · exact Nat.le_add_right _ _
    · exact le_trans (ih h') (Nat.le_add_left _ _)

theorem occurs_eq_zero_of_all {rs : List (String × Room)} {c : String}
    (h : ∀ q ∈ rs, occursIn q.2.users c = 0) : occurs rs c = 0 := by
  induction rs with
  | nil => rfl
  | cons p rs ih =>
    rw [occurs_cons, h p (List.mem_cons_self p rs), ih (fun q hq => h q (List.mem_cons_of_mem p hq))]

theorem occurs_removeFromAllRooms_le (rs : List (String × Room))
    (uid c : String) :
    occurs (removeFromAllRooms rs uid) c ≤ occurs rs c := by
  induction rs with
  | nil => exact Nat.le_refl _
  | cons p rs ih =>
    rw [removeFromAllRooms_cons, occurs_cons, occurs_cons]
    exact Nat.add_le_add (occursIn_removeFirstById_le _ _ _) ih

theorem occurs_removeFromAllRooms_ne {uid c : String} (h : uid ≠ c)
    (rs : List (String × Room)) :
    occurs (removeFromAllRooms rs uid) c = occurs rs c := by
  induction rs with
  | nil => rfl
  | cons p rs ih =>
    rw [removeFromAllRooms_cons, occurs_cons, occurs_cons,
      occursIn_removeFirstById_ne h, ih]

theorem occurs_removeFromAllRooms_self {rs : List (String × Room)}
    {uid : String} (h : occurs rs uid ≤ 1) :
    occurs (removeFromAllRooms rs uid) uid = 0 := by
  induction rs with
  | nil => rfl
  | cons p rs ih =>
    rw [occurs_cons] at h
    rw [removeFromAllRooms_cons, occurs_cons,
      occursIn_removeFirstById_self (by omega), ih (by omega)]

theorem mapRoom_eq_of_not_mem {rs : List (String × Room)} {k : String}
    (f : Room → Room) (h : k ∉ rs.map Prod.fst) : mapRoom rs k f = rs := by
  induction rs with
  | nil => rfl
  | cons p rs ih =>
    rw [List.map_cons] at h
    have h1 : ¬k = p.1 := fun hc => h (hc ▸ List.mem_cons_self _ _)
    have h2 : k ∉ rs.map Prod.fst := fun hc => h (List.mem_cons_of_mem _ hc)
    have hb : (p.1 == k) = false := beq_eq_false_iff_ne.mpr (fun hc => h1 hc.symm)
    rw [mapRoom_cons, hb, ih h2]
    simp

theorem occurs_mapRoom_le {rs : List (String × Room)} {k : String}
    {f : Room → Room} {c : String}
    (hf : ∀ r, occursIn (f r).users c ≤ occursIn r.users c) :
    occurs (mapRoom rs k f) c ≤ occurs rs c := by
  induction rs with
  | nil => exact Nat.le_refl _
  | cons p rs ih =>
    rw [mapRoom_cons, occurs_cons, occurs_cons]
    by_cases hb : (p.1 == k) = true
    · rw [hb]
      simp only [if_true]
      exact Nat.add_le_add (hf p.2) ih
    · rw [show (p.1 == k) = false by simpa using hb]
      simp only [Bool.false_eq_true, if_false]
      exact Nat.add_le_add (Nat.le_refl _) ih

theorem occurs_mapRoom_eq {rs : List (String × Room)} {k : String}
    {f : Room → Room} {c : String}
    (hf : ∀ r, occursIn (f r).users c = occursIn r.users c) :
    occurs (mapRoom rs k f) c = occurs rs c := by
  induction rs with
  | nil => rfl
  | cons p rs ih =>
    rw [mapRoom_cons, occurs_cons, occurs_cons, ih]
    by_cases hb : (p.1 == k) = true
    · rw [hb]
      simp only [if_true, hf p.2]
    · rw [show (p.1 == k) = false by simpa using hb]
      simp only [Bool.false_eq_true, if_false]

theorem occurs_mapRoom_push {rs : List (String × Room)} {k : String}
    (hnd : (rs.map Prod.fst).Nodup)
    (hlk : (lookupRoom rs k).isSome) (u : User) (c : String) :
    occurs (mapRoom rs k (fun r => { r with users := r.users ++ [u] })) c
      = occurs rs c + (if u.id == c then 1 else 0) := by
  induction rs with
  | nil => simp [lookupRoom] at hlk
  | cons p rs ih =>
    rw [List.map_cons, List.nodup_cons] at hnd
    rw [lookupRoom_cons] at hlk
    rw [mapRoom_cons, occurs_cons, occurs_cons]
    by_cases hb : (p.1 == k) = true
    · have hp : p.1 = k := by simpa using hb
      have hnm : k ∉ rs.map Prod.fst := hp ▸ hnd.1
      rw [hb]
      simp only [if_true]
      rw [mapRoom_eq_of_not_mem _ hnm, occursIn_append]
      omega
    · rw [show (p.1 == k) = false by simpa using hb] at hlk ⊢
      simp only [Bool.false_eq_true, if_false] at hlk ⊢
      rw [ih hnd.2 hlk]
      omega

theorem occurs_mapRoom_lookup_le {rs : List (String × Room)} {k : String}
    {room : Room} {f : Room → Room} {c : String}
    (hnd : (rs.map Prod.fst).Nodup) (hlk : lookupRoom rs k = some room)
    (hle : occursIn (f room).users c ≤ occursIn room.users c) :
    occurs (mapRoom rs k f) c ≤ occurs rs c := by
  induction rs with
  | nil => simp [lookupRoom] at hlk
  | cons p rs ih =>
    rw [List.map_cons, List.nodup_cons] at hnd
    rw [lookupRoom_cons] at hlk
    rw [mapRoom_cons, occurs_cons, occurs_cons]
    by_cases hb : (p.1 == k) = true
    · rw [hb] at hlk ⊢
      simp only [if_true] at hlk ⊢
      have hroom : p.2 = room := by
        injection hlk
      have hp : p.1 = k := by simpa using hb
      have hnm : k ∉ rs.map Prod.fst := hp ▸ hnd.1
      rw [hroom, mapRoom_eq_of_not_mem _ hnm]
      exact Nat.add_le_add hle (Nat.le_refl _)
    · rw [show (p.1 == k) = false by simpa using hb] at hlk ⊢
      simp only [Bool.false_eq_true, if_false] at hlk ⊢
      exact Nat.add_le_add (Nat.le_refl _) (ih hnd.2 hlk)

/-! ## The invariants of the coordination engine -/

/-- Global exclusivity: every connection id occurs at most once across all
    member lists of the registry. -/
def Exclusive (rs : List (String × Room)) : Prop := ∀ c, occurs rs c ≤ 1

/-- Ownership invariant: a non-null stored owner id always belongs to a
    current member of that room. -/
def OwnerOk (rs : List (String × Room)) : Prop :=
  ∀ q ∈ rs, ∀ oid, (Prod.snd q).owner = some oid
    → ∃ u, u ∈ (Prod.snd q).users ∧ u.id = oid

/-- Session consistency: a member of a room always has its socket's
    `roomId` field pointing at that room. -/
def SessOk (sess : String → Session) (rs : List (String × Room)) : Prop :=
  ∀ q ∈ rs, ∀ u, u ∈ (Prod.snd q).users → (sess u.id).roomId = some (Prod.fst q)

/-- The registry always keeps exactly the three fixed room keys. -/
def RoomKeys (rs : List (String × Room)) : Prop :=
  rs.map Prod.fst = ["room1", "room2", "room3"]

/-- The combined reachable-state invariant. -/
def ServerInv (st : ServerState) : Prop :=
  Exclusive st.chat.rooms ∧ OwnerOk st.chat.rooms
    ∧ SessOk st.sessions st.chat.rooms ∧ RoomKeys st.chat.rooms

theorem roomKeys_nodup {rs : List (String × Room)} (h : RoomKeys rs) :
    (rs.map Prod.fst).Nodup := by
  rw [show rs.map Prod.fst = ["room1", "room2", "room3"] from h]
  decide

theorem exists_mem_of_occursIn_pos {us : List User} {c : String}
    (h : 0 < occursIn us c) : ∃ u, u ∈ us ∧ u.id = c := by
  rcases List.countP_pos_iff.mp h with ⟨u, hu, hp⟩
  exact ⟨u, hu, by simpa using hp⟩

/-! ## Lemmas about `departedRoom` -/

theorem departedRoom_messages (room : Room) (uid : String) :
    (departedRoom room uid).messages = room.messages := by
  simp only [departedRoom]
  by_cases hb : (room.owner == some uid) = true
  · rw [if_pos hb]
    cases hsplit : removeFirstById room.users uid with
    | nil => rfl
    | cons u rest => rfl
  · rw [if_neg hb]

theorem departedRoom_ownerOk {room : Room} {uid : String}
    (hroom : ∀ oid, room.owner = some oid → ∃ u, u ∈ room.users ∧ u.id = oid)
    {oid : String} (h : (departedRoom room uid).owner = some oid) :
    ∃ u, u ∈ (departedRoom room uid).users ∧ u.id = oid := by
  simp only [departedRoom] at h ⊢
  by_cases hb : (room.owner == some uid) = true
  · rw [if_pos hb] at h ⊢
    cases hsplit : removeFirstById room.users uid with
    | nil => rw [hsplit] at h; simp at h
    | cons u rest =>
      rw [hsplit] at h
      have hid : u.id = oid := by simpa using h
      refine ⟨{ u with isOwner := true }, by simp, by simpa using hid⟩
  · rw [if_neg hb] at h ⊢
    rcases hroom oid h with ⟨u, hu, hid⟩
    have hne : u.id ≠ uid := by
      intro hc
      exact (by simpa using hb : ¬ room.owner = some uid) (by rw [h, ← hid, hc])
    exact ⟨u, mem_removeFirstById_of_ne hu hne, hid⟩

theorem mem_departedRoom_ids {room : Room} {uid : String} {w : User}
    (h : w ∈ (departedRoom room uid).users) :
    ∃ u, u ∈ room.users ∧ w.id = u.id := by
  simp only [departedRoom] at h
  by_cases hb : (room.owner == some uid) = true
  · rw [if_pos hb] at h
    cases hsplit : removeFirstById room.users uid with
    | nil => rw [hsplit] at h; simp at h
    | cons u rest =>
      rw [hsplit] at h
      have h2 : w = { u with isOwner := true } ∨ w ∈ rest := by simpa using h
      rcases h2 with rfl | h'
      · exact ⟨u, mem_of_mem_removeFirstById (hsplit ▸ List.mem_cons_self u rest), rfl⟩
      · exact ⟨w, mem_of_mem_removeFirstById (hsplit ▸ List.mem_cons_of_mem u h'), rfl⟩
  · rw [if_neg hb] at h
    exact ⟨w, mem_of_mem_removeFirstById h, rfl⟩

theorem occursIn_departedRoom (room : Room) (uid c : String) :
    occursIn (departedRoom room uid).users c
      = occursIn (removeFirstById room.users uid) c := by
  simp only [departedRoom]
  by_cases hb : (room.owner == some uid) = true
  · rw [if_pos hb]
    cases hsplit : removeFirstById room.users uid with
    | nil => simp [occursIn]
    | cons u rest => simp [occursIn_cons]
  · rw [if_neg hb]

/-! ## Preservation lemmas for `leaveRoom` -/

theorem leaveRoom_keys (st : ChatState) (uid rid : String) :
    ((leaveRoom st uid rid).1).rooms.map Prod.fst = st.rooms.map Prod.fst := by
  cases hlk : lookupRoom st.rooms rid with
  | none => simp only [leaveRoom, hlk]
  | some room =>
    cases hfind : findById room.users uid with
    | none => simp only [leaveRoom, hlk, hfind]
    | some user =>
      simp only [leaveRoom, hlk, hfind]
      exact mapRoom_keys _ _ _

theorem leaveRoom_exclusive {st : ChatState} {uid rid : String}
    (hnd : (st.rooms.map Prod.fst).Nodup) (hex : Exclusive st.rooms) :
    Exclusive ((leaveRoom st uid rid).1).rooms := by
  intro c
  cases hlk : lookupRoom st.rooms rid with
  | none => simp only [leaveRoom, hlk]; exact hex c
  | some room =>
    cases hfind : findById room.users uid with
    | none => simp only [leaveRoom, hlk, hfind]; exact hex c
    | some user =>
      simp only [leaveRoom, hlk, hfind]
      refine le_trans (occurs_mapRoom_lookup_le hnd hlk ?_) (hex c)
      rw [occursIn_departedRoom]
      exact occursIn_removeFirstById_le _ _ _

theorem leaveRoom_ownerOk {st : ChatState} {uid rid : String}
    (hok : OwnerOk st.rooms) :
    OwnerOk ((leaveRoom st uid rid).1).rooms := by
  cases hlk : lookupRoom st.rooms rid with
  | none => simp only [leaveRoom, hlk]; exact hok
  | some room =>
    cases hfind : findById room.users uid with
    | none => simp only [leaveRoom, hlk, hfind]; exact hok
    | some user =>
      simp only [leaveRoom, hlk, hfind]
      intro q hq oid hoid
      obtain ⟨k, v⟩ := q
      rcases mem_mapRoom_elim hq with ⟨r, hr, hcase⟩
      rcases hcase with ⟨hk, hval⟩ | ⟨hk, hval⟩
      · rw [show v = departedRoom room uid from hval] at hoid ⊢
        exact departedRoom_ownerOk
          (fun oid' h' => hok (rid, room) (mem_of_lookupRoom hlk) oid' h') hoid
      · rw [show v = r from hval] at hoid ⊢
        exact hok (k, r) hr oid hoid

theorem leaveRoom_sessOk {sess : String → Session} {st : ChatState}
    {uid rid : String} (hso : SessOk sess st.rooms) :
    SessOk sess ((leaveRoom st uid rid).1).rooms := by
  cases hlk : lookupRoom st.rooms rid with
  | none => simp only [leaveRoom, hlk]; exact hso
  | some room =>
    cases hfind : findById room.users uid with
    | none => simp only [leaveRoom, hlk, hfind]; exact hso
    | some user =>
      simp only [leaveRoom, hlk, hfind]
      intro q hq u hu
      obtain ⟨k, v⟩ := q
      rcases mem_mapRoom_elim hq with ⟨r, hr, hcase⟩
      rcases hcase with ⟨hk, hval⟩ | ⟨hk, hval⟩
      · rw [show v = departedRoom room uid from hval] at hu
        rcases mem_departedRoom_ids hu with ⟨u0, hu0, hid⟩
        rw [hid, show (k, v).1 = rid from hk]
        exact hso (rid, room) (mem_of_lookupRoom hlk) u0 hu0
      · rw [show v = r from hval] at hu
        exact hso (k, r) hr u hu

theorem leaveRoom_messages (st : ChatState) (uid rid k : String) :
    (lookupRoom ((leaveRoom st uid rid).1).rooms k).map Room.messages
      = (lookupRoom st.rooms k).map Room.messages := by
  cases hlk : lookupRoom st.rooms rid with
  | none => simp only [leaveRoom, hlk]
  | some room =>
    cases hfind : findById room.users uid with
    | none => simp only [leaveRoom, hlk, hfind]
    | some user =>
      simp only [leaveRoom, hlk, hfind]
      by_cases hk : k = rid
      · subst hk
        rw [lookupRoom_mapRoom_self, hlk]
        simp [departedRoom_messages]
      · rw [lookupRoom_mapRoom_ne hk]

theorem leaveRoom_occurs_self {st : ChatState} {sess : String → Session}
    {uid rid : String}
    (hnd : (st.rooms.map Prod.fst).Nodup)
    (hex : Exclusive st.rooms) (hso : SessOk sess st.rooms)
    (hsid : (sess uid).roomId = some rid) :
    occurs ((leaveRoom st uid rid).1).rooms uid = 0 := by
  cases hlk : lookupRoom st.rooms rid with
  | none =>
    simp only [leaveRoom, hlk]
    apply occurs_eq_zero_of_all
    intro q hq
    by_contra hne
    rcases exists_mem_of_occursIn_pos (Nat.pos_of_ne_zero hne) with ⟨u, hu, hid⟩
    have hrid : some q.1 = some rid := by
      rw [← hso q hq u hu, hid, hsid]
    have : lookupRoom st.rooms rid = some q.2 := by
      have hq1 : q.1 = rid := by injection hrid
      exact lookupRoom_eq_of_mem hnd (by rw [← hq1]; exact hq)
    rw [hlk] at this
    cases this
  | some room =>
    cases hfind : findById room.users uid with
    | none =>
      simp only [leaveRoom, hlk, hfind]
      apply occurs_eq_zero_of_all
      intro q hq
      by_contra hne
      rcases exists_mem_of_occursIn_pos (Nat.pos_of_ne_zero hne) with ⟨u, hu, hid⟩
      have hrid : some q.1 = some rid := by
        rw [← hso q hq u hu, hid, hsid]
      have hq1 : q.1 = rid := by injection hrid
      have hlk2 : lookupRoom st.rooms rid = some q.2 :=
        lookupRoom_eq_of_mem hnd (by rw [← hq1]; exact hq)
      rw [hlk] at hlk2
      have hq2 : q.2 = room := by injection hlk2 with h2; exact h2.symm
      have := findById_isSome_of_mem (hq2 ▸ hu) hid
      rw [hfind] at this
      cases this
    | some user =>
      simp only [leaveRoom, hlk, hfind]
      apply occurs_eq_zero_of_all
      intro q hq
      obtain ⟨k, v⟩ := q
      rcases mem_mapRoom_elim hq with ⟨r, hr, hcase⟩
      rcases hcase with ⟨hk, hval⟩ | ⟨hk, hval⟩
      · rw [show (k, v).2 = departedRoom room uid from hval, occursIn_departedRoom]
        apply occursIn_removeFirstById_self
        exact le_trans (occursIn_le_occurs (mem_of_lookupRoom hlk) uid) (hex uid)
      · rw [show (k, v).2 = r from hval]
        by_contra hne
        rcases exists_mem_of_occursIn_pos (Nat.pos_of_ne_zero hne) with ⟨u, hu, hid⟩
        have hrid : some k = some rid := by
          rw [← hso (k, r) hr u hu, hid, hsid]
        exact hk (by injection hrid)


/-! ## Preservation lemmas for `joinRooms` -/

theorem occursIn_pos_of_mem {us : List User} {u : User} {c : String}
    (hm : u ∈ us) (hid : u.id = c) : 0 < occursIn us c :=
  List.countP_pos_iff.mpr ⟨u, hm, by simp [hid]⟩

theorem ownerAssignRooms_keys (rs : List (String × Room)) (room0 : Room)
    (uid rid : String) :
    (ownerAssignRooms rs room0 uid rid).map Prod.fst = rs.map Prod.fst := by
  unfold ownerAssignRooms
  by_cases hNone : room0.owner.isNone = true
  · rw [if_pos hNone, mapRoom_keys]
  · rw [if_neg hNone]

theorem occurs_ownerAssignRooms (rs : List (String × Room)) (room0 : Room)
    (uid rid c : String) :
    occurs (ownerAssignRooms rs room0 uid rid) c = occurs rs c := by
  unfold ownerAssignRooms
  by_cases hNone : room0.owner.isNone = true
  · rw [if_pos hNone]
    exact occurs_mapRoom_eq (fun r => rfl)
  · rw [if_neg hNone]

theorem lookupRoom_ownerAssignRooms_self {rs : List (String × Room)}
    {room0 : Room} {uid rid : String}
    (hlk : lookupRoom rs rid = some room0) :
    lookupRoom (ownerAssignRooms rs room0 uid rid) rid
      = some (if room0.owner.isNone then { room0 with owner := some uid }
              else room0) := by
  unfold ownerAssignRooms
  by_cases hNone : room0.owner.isNone = true
  · rw [if_pos hNone, lookupRoom_mapRoom_self, hlk, Option.map_some']
    simp [hNone]
  · rw [if_neg hNone, hlk]
    simp [hNone]

theorem mem_ownerAssignRooms_elim {rs : List (String × Room)} {room0 : Room}
    {uid rid : String} {k : String} {v : Room}
    (h : (k, v) ∈ ownerAssignRooms rs room0 uid rid) :
    ∃ r, (k, r) ∈ rs ∧ v.users = r.users ∧ v.messages = r.messages ∧
      (v.owner = r.owner ∨ (k = rid ∧ room0.owner.isNone ∧ v.owner = some uid)) := by
  unfold ownerAssignRooms at h
  by_cases hNone : room0.owner.isNone = true
  · rw [if_pos hNone] at h
    rcases mem_mapRoom_elim h with ⟨r, hr, hcase⟩
    rcases hcase with ⟨hk, hval⟩ | ⟨hk, hval⟩
    · subst hval
      exact ⟨r, hr, rfl, rfl, Or.inr ⟨hk, hNone, rfl⟩⟩
    · exact ⟨r, hr, by rw [hval], by rw [hval], Or.inl (by rw [hval])⟩
  · rw [if_neg hNone] at h
    exact ⟨v, h, rfl, rfl, Or.inl rfl⟩

theorem joinRooms_keys (rs : List (String × Room)) (room0 : Room)
    (uid un rid : String) (now : Nat) :
    (joinRooms rs room0 uid un rid now).map Prod.fst = rs.map Prod.fst := by
  unfold joinRooms
  rw [mapRoom_keys, removeFromAllRooms_keys, ownerAssignRooms_keys]

theorem mem_joinRooms_elim {rs : List (String × Room)} {room0 : Room}
    {uid un rid : String} {now : Nat} {k : String} {v : Room}
    (h : (k, v) ∈ joinRooms rs room0 uid un rid now) :
    ∃ r, (k, r) ∈ rs ∧ v.messages = r.messages ∧
      ((k ≠ rid ∧ v.users = removeFirstById r.users uid ∧ v.owner = r.owner) ∨
       (k = rid
         ∧ v.users = removeFirstById r.users uid ++ [joinUser room0 uid un now]
         ∧ (v.owner = r.owner ∨ (room0.owner.isNone ∧ v.owner = some uid)))) := by
  unfold joinRooms at h
  rcases mem_mapRoom_elim h with ⟨r2, hr2, hpush⟩
  rcases mem_removeFromAllRooms_elim hr2 with ⟨r1, hr1, hv2⟩
  rcases mem_ownerAssignRooms_elim hr1 with ⟨r, hr, hus1, hms1, hown1⟩
  rcases hpush with ⟨hk, hval⟩ | ⟨hk, hval⟩
  · subst hval
    subst hv2
    refine ⟨r, hr, hms1, Or.inr ⟨hk, ?_, ?_⟩⟩
    · rw [show ({ r1 with users := removeFirstById r1.users uid } : Room).users
          = removeFirstById r1.users uid from rfl, hus1]
    · rcases hown1 with hown1 | ⟨_, hN, hown1⟩
      · exact Or.inl hown1
      · exact Or.inr ⟨hN, hown1⟩
  · subst hval
    subst hv2
    refine ⟨r, hr, hms1, Or.inl ⟨hk, ?_, ?_⟩⟩
    · rw [show ({ r1 with users := removeFirstById r1.users uid } : Room).users
          = removeFirstById r1.users uid from rfl, hus1]
    · rcases hown1 with hown1 | ⟨hk', _, _⟩
      · exact hown1
      · exact absurd hk' hk

theorem lookupRoom_joinRooms_self {rs : List (String × Room)} {room0 : Room}
    {uid un rid : String} {now : Nat}
    (hlk : lookupRoom rs rid = some room0) :
    lookupRoom (joinRooms rs room0 uid un rid now) rid
      = some { room0 with
          owner := if room0.owner.isNone then some uid else room0.owner,
          users := removeFirstById room0.users uid
                     ++ [joinUser room0 uid un now] } := by
  unfold joinRooms
  rw [lookupRoom_mapRoom_self, lookupRoom_removeFromAllRooms,
    lookupRoom_ownerAssignRooms_self hlk]
  by_cases hNone : room0.owner.isNone = true
  · simp [hNone]
  · simp [hNone]

theorem joinRooms_occurs_self {rs : List (String × Room)} {room0 : Room}
    {uid un rid : String} {now : Nat}
    (hnd : (rs.map Prod.fst).Nodup)
    (hlk : lookupRoom rs rid = some room0)
    (hzero : occurs rs uid = 0) :
    occurs (joinRooms rs room0 uid un rid now) uid = 1 := by
  unfold joinRooms
  have hnd2 : ((removeFromAllRooms (ownerAssignRooms rs room0 uid rid)
      uid).map Prod.fst).Nodup := by
    rw [removeFromAllRooms_keys, ownerAssignRooms_keys]; exact hnd
  have hlk2 : (lookupRoom (removeFromAllRooms (ownerAssignRooms rs room0 uid rid)
      uid) rid).isSome := by
    rw [lookupRoom_removeFromAllRooms, lookupRoom_ownerAssignRooms_self hlk]
    rfl
  rw [occurs_mapRoom_push hnd2 hlk2]
  have h2 : occurs (removeFromAllRooms (ownerAssignRooms rs room0 uid rid)
      uid) uid = 0 :=
    occurs_removeFromAllRooms_self
      (by rw [occurs_ownerAssignRooms, hzero]; exact Nat.zero_le 1)
  rw [h2]
  simp [joinUser]

theorem joinRooms_occurs_ne {rs : List (String × Room)} {room0 : Room}
    {uid un rid c : String} {now : Nat}
    (hnd : (rs.map Prod.fst).Nodup)
    (hlk : lookupRoom rs rid = some room0)
    (hne : uid ≠ c) :
    occurs (joinRooms rs room0 uid un rid now) c = occurs rs c := by
  unfold joinRooms
  have hnd2 : ((removeFromAllRooms (ownerAssignRooms rs room0 uid rid)
      uid).map Prod.fst).Nodup := by
    rw [removeFromAllRooms_keys, ownerAssignRooms_keys]; exact hnd
  have hlk2 : (lookupRoom (removeFromAllRooms (ownerAssignRooms rs room0 uid rid)
      uid) rid).isSome := by
    rw [lookupRoom_removeFromAllRooms, lookupRoom_ownerAssignRooms_self hlk]
    rfl
  rw [occurs_mapRoom_push hnd2 hlk2, occurs_removeFromAllRooms_ne hne,
    occurs_ownerAssignRooms]
  simp [joinUser, beq_eq_false_iff_ne.mpr hne]

theorem joinRooms_exclusive {rs : List (String × Room)} {room0 : Room}
    {uid un rid : String} {now : Nat}
    (hnd : (rs.map Prod.fst).Nodup)
    (hlk : lookupRoom rs rid = some room0)
    (hzero : occurs rs uid = 0)
    (hex : Exclusive rs) :
    Exclusive (joinRooms rs room0 uid un rid now) := by
  intro c
  by_cases hc : uid = c
  · subst hc
    rw [joinRooms_occurs_self hnd hlk hzero]
  · rw [joinRooms_occurs_ne hnd hlk hc]
    exact hex c

theorem joinRooms_ownerOk {rs : List (String × Room)} {room0 : Room}
    {uid un rid : String} {now : Nat}
    (_hnd : (rs.map Prod.fst).Nodup)
    (_hlk : lookupRoom rs rid = some room0)
    (hzero : occurs rs uid = 0)
    (hok : OwnerOk rs) :
    OwnerOk (joinRooms rs room0 uid un rid now) := by
  intro q hq oid hoid
  obtain ⟨k, v⟩ := q
  rcases mem_joinRooms_elim hq with ⟨r, hr, hmsgs, hcase⟩
  rcases hcase with ⟨hk, husers, howner⟩ | ⟨hk, husers, howner⟩
  · have hro : r.owner = some oid := by
      rw [← howner]; exact hoid
    rcases hok (k, r) hr oid hro with ⟨w, hw, hwid⟩
    have hne : w.id ≠ uid := by
      intro hcid
      have h1 := occursIn_pos_of_mem hw hcid
      have h2 := occursIn_le_occurs hr uid
      omega
    refine ⟨w, ?_, hwid⟩
    rw [show ((k, v).2).users = v.users from rfl, husers]
    exact mem_removeFirstById_of_ne hw hne
  · rcases howner with howner | ⟨hNone, howner⟩
    · by_cases hoiduid : oid = uid
      · refine ⟨joinUser room0 uid un now, ?_, by rw [hoiduid]; rfl⟩
        rw [show ((k, v).2).users = v.users from rfl, husers]
        exact List.mem_append_right _ (List.mem_cons_self _ _)
      · have hro : r.owner = some oid := by
          rw [← howner]; exact hoid
        rcases hok (k, r) hr oid hro with ⟨w, hw, hwid⟩
        have hne : w.id ≠ uid := fun hcid => hoiduid (by rw [← hwid, hcid])
        refine ⟨w, ?_, hwid⟩
        rw [show ((k, v).2).users = v.users from rfl, husers]
        exact List.mem_append_left _ (mem_removeFirstById_of_ne hw hne)
    · have hoid2 : oid = uid := by
        have : some uid = some oid := by rw [← howner]; exact hoid
        injection this with h2
        exact h2.symm
      refine ⟨joinUser room0 uid un now, ?_, by rw [hoid2]; rfl⟩
      rw [show ((k, v).2).users = v.users from rfl, husers]
      exact List.mem_append_right _ (List.mem_cons_self _ _)

theorem joinRooms_sessOk {rs : List (String × Room)} {room0 : Room}
    {uid un rid : String} {now : Nat}
    {sess sessNew : String → Session}
    (hzero : occurs rs uid = 0)
    (hso : SessOk sess rs)
    (hself : (sessNew uid).roomId = some rid)
    (hother : ∀ x, x ≠ uid → sessNew x = sess x) :
    SessOk sessNew (joinRooms rs room0 uid un rid now) := by
  intro q hq u hu
  obtain ⟨k, v⟩ := q
  rcases mem_joinRooms_elim hq with ⟨r, hr, hmsgs, hcase⟩
  rcases hcase with ⟨hk, husers, howner⟩ | ⟨hk, husers, howner⟩
  · rw [show ((k, v).2) = v from rfl, husers] at hu
    have hmem : u ∈ r.users := mem_of_mem_removeFirstById hu
    have hne : u.id ≠ uid := by
      intro hcid
      have h1 := occursIn_pos_of_mem hmem hcid
      have h2 : occursIn r.users uid ≤ occurs rs uid := occursIn_le_occurs hr uid
      omega
    rw [hother u.id hne]
    exact hso (k, r) hr u hmem
  · rw [show ((k, v).2) = v from rfl, husers] at hu
    rcases List.mem_append.mp hu with hu' | hu'
    · have hmem : u ∈ r.users := mem_of_mem_removeFirstById hu'
      have hne : u.id ≠ uid := by
        intro hcid
        have h1 := occursIn_pos_of_mem hmem hcid
        have h2 : occursIn r.users uid ≤ occurs rs uid := occursIn_le_occurs hr uid
        omega
      rw [hother u.id hne]
      exact hso (k, r) hr u hmem
    · have hu2 : u = joinUser room0 uid un now := by
        simpa using hu'
      rw [hu2, show (joinUser room0 uid un now).id = uid from rfl, hself,
        show ((k, v) : String × Room).1 = k from rfl, hk]

/-! ## Invariant preservation by the event handlers -/

theorem serverInv_after_join {chat1 : ChatState} {sess : String → Session}
    {sid un rid : String} {now : Nat}
    (hex1 : Exclusive chat1.rooms) (hok1 : OwnerOk chat1.rooms)
    (hso1 : SessOk sess chat1.rooms) (hkeys1 : RoomKeys chat1.rooms)
    (hzero : occurs chat1.rooms sid = 0) :
    ((joinRoom chat1 sid un rid now).1 = false →
        (joinRoom chat1 sid un rid now).2 = chat1)
    ∧ ((joinRoom chat1 sid un rid now).1 = true →
        Exclusive (joinRoom chat1 sid un rid now).2.rooms
        ∧ OwnerOk (joinRoom chat1 sid un rid now).2.rooms
        ∧ SessOk (fun x => if x == sid
              then { roomId := some rid, username := some un }
              else sess x)
            (joinRoom chat1 sid un rid now).2.rooms
        ∧ RoomKeys (joinRoom chat1 sid un rid now).2.rooms) := by
  have hnd := roomKeys_nodup hkeys1
  cases hjoin : lookupRoom chat1.rooms rid with
  | none =>
    constructor
    · intro _
      simp only [joinRoom, hjoin]
    · intro hc
      simp only [joinRoom, hjoin] at hc
      cases hc
  | some room0 =>
    constructor
    · intro hc
      simp only [joinRoom, hjoin] at hc
      cases hc
    · intro _
      simp only [joinRoom, hjoin]
      refine ⟨?_, ?_, ?_, ?_⟩
      · exact joinRooms_exclusive hnd hjoin hzero hex1
      · exact joinRooms_ownerOk hnd hjoin hzero hok1
      · refine joinRooms_sessOk hzero hso1 ?_ ?_
        · simp
        · intro x hx
          simp [beq_eq_false_iff_ne.mpr hx]
      · show RoomKeys _
        unfold RoomKeys
        rw [joinRooms_keys]
        exact hkeys1

theorem serverInv_handleJoinRoom {st : ServerState} {sid un rid : String}
    (h : ServerInv st) : ServerInv (handleJoinRoom st sid un rid).1 := by
  obtain ⟨hex, hok, hso, hkeys⟩ := h
  have hnd := roomKeys_nodup hkeys
  simp only [handleJoinRoom]
  by_cases hval : (un == "" || rid == "") = true
  · rw [if_pos hval]
    exact ⟨hex, hok, hso, hkeys⟩
  · rw [if_neg hval]
    cases hsess : (st.sessions sid).roomId with
    | none =>
      have hzero : occurs st.chat.rooms sid = 0 := by
        apply occurs_eq_zero_of_all
        intro q hq
        by_contra hne
        rcases exists_mem_of_occursIn_pos (Nat.pos_of_ne_zero hne) with ⟨u, hu, hid⟩
        have hx := hso q hq u hu
        rw [hid, hsess] at hx
        cases hx
      have hfin := @serverInv_after_join st.chat st.sessions sid un rid st.clock
        hex hok hso hkeys hzero
      by_cases hjb : (joinRoom st.chat sid un rid st.clock).1 = true
      · rw [if_pos hjb]
        rcases hfin.2 hjb with ⟨h1, h2, h3, h4⟩
        exact ⟨h1, h2, h3, h4⟩
      · rw [if_neg hjb]
        exact ⟨hex, hok, hso, hkeys⟩
    | some prev =>
      have hex1 := @leaveRoom_exclusive st.chat sid prev hnd hex
      have hok1 := @leaveRoom_ownerOk st.chat sid prev hok
      have hso1 := @leaveRoom_sessOk st.sessions st.chat sid prev hso
      have hkeys1 : RoomKeys ((leaveRoom st.chat sid prev).1).rooms := by
        unfold RoomKeys
        rw [leaveRoom_keys]
        exact hkeys
      have hzero := @leaveRoom_occurs_self st.chat st.sessions sid prev
        hnd hex hso hsess
      have hfin := @serverInv_after_join (leaveRoom st.chat sid prev).1
        st.sessions sid un rid st.clock hex1 hok1 hso1 hkeys1 hzero
      dsimp only
      cases hleft : (leaveRoom st.chat sid prev).2 with
      | some leftUser =>
        dsimp only
        by_cases hjb : (joinRoom (leaveRoom st.chat sid prev).1 sid un rid st.clock).1 = true
        · rw [if_pos hjb]
          rcases hfin.2 hjb with ⟨h1, h2, h3, h4⟩
          exact ⟨h1, h2, h3, h4⟩
        · rw [if_neg hjb]
          exact ⟨hex1, hok1, hso1, hkeys1⟩
      | none =>
        dsimp only
        by_cases hjb : (joinRoom (leaveRoom st.chat sid prev).1 sid un rid st.clock).1 = true
        · rw [if_pos hjb]
          rcases hfin.2 hjb with ⟨h1, h2, h3, h4⟩
          exact ⟨h1, h2, h3, h4⟩
        · rw [if_neg hjb]
          exact ⟨hex1, hok1, hso1, hkeys1⟩

theorem serverInv_messagesOnly {st : ServerState} {rid : String}
    {g : Room → List Message} (h : ServerInv st) :
    ServerInv { st with chat := { st.chat with
      rooms := mapRoom st.chat.rooms rid (fun r => { r with messages := g r }) } } := by
  obtain ⟨hex, hok, hso, hkeys⟩ := h
  refine ⟨?_, ?_, ?_, ?_⟩
  · intro c
    show occurs (mapRoom st.chat.rooms rid (fun r => { r with messages := g r })) c ≤ 1
    rw [@occurs_mapRoom_eq st.chat.rooms rid
      (fun r => { r with messages := g r }) c (fun r => rfl)]
    exact hex c
  · intro q hq oid hoid
    obtain ⟨k, v⟩ := q
    have hq2 : (k, v) ∈ mapRoom st.chat.rooms rid
        (fun r => { r with messages := g r }) := hq
    rcases mem_mapRoom_elim hq2 with ⟨r, hr, hcase⟩
    rcases hcase with ⟨hk, hval⟩ | ⟨hk, hval⟩
    · subst hval
      rcases hok (k, r) hr oid hoid with ⟨w, hw, hwid⟩
      exact ⟨w, hw, hwid⟩
    · subst hval
      exact hok (k, v) hr oid hoid
  · intro q hq u hu
    obtain ⟨k, v⟩ := q
    have hq2 : (k, v) ∈ mapRoom st.chat.rooms rid
        (fun r => { r with messages := g r }) := hq
    rcases mem_mapRoom_elim hq2 with ⟨r, hr, hcase⟩
    rcases hcase with ⟨hk, hval⟩ | ⟨hk, hval⟩
    · subst hval
      exact hso (k, r) hr u hu
    · subst hval
      exact hso (k, v) hr u hu
  · show RoomKeys _
    unfold RoomKeys
    rw [mapRoom_keys]
    exact hkeys

theorem serverInv_handleSendMessage {st : ServerState} {sid un msg rid : String}
    (h : ServerInv st) : ServerInv (handleSendMessage st sid un msg rid).1 := by
  unfold handleSendMessage
  by_cases hval : (un == "" || msg == "" || rid == "") = true
  · rw [if_pos hval]
    exact h
  · rw [if_neg hval]
    cases hlk : lookupRoom st.chat.rooms rid with
    | none => exact h
    | some room =>
      dsimp only
      exact serverInv_messagesOnly h

theorem serverInv_handleClearChat {st : ServerState} {sid rid : String}
    (h : ServerInv st) : ServerInv (handleClearChat st sid rid).1 := by
  unfold handleClearChat
  by_cases hval : (rid == "") = true
  · rw [if_pos hval]
    exact h
  · rw [if_neg hval]
    cases hlk : lookupRoom st.chat.rooms rid with
    | none => exact h
    | some room =>
      dsimp only
      by_cases hown : (room.owner == some sid) = true
      · rw [if_pos hown]
        exact serverInv_messagesOnly h
      · rw [if_neg hown]
        exact h

theorem handleTyping_state (st : ServerState) (sid un rid : String) :
    (handleTyping st sid un rid).1 = st := by
  unfold handleTyping
  by_cases hc : (rid != "" && (lookupRoom st.chat.rooms rid).isSome) = true
  · rw [if_pos hc]
  · rw [if_neg hc]

theorem handleStopTyping_state (st : ServerState) (sid rid : String) :
    (handleStopTyping st sid rid).1 = st := by
  unfold handleStopTyping
  by_cases hc : (rid != "" && (lookupRoom st.chat.rooms rid).isSome) = true
  · rw [if_pos hc]
  · rw [if_neg hc]

theorem serverInv_handleDisconnect {st : ServerState} {sid : String}
    (h : ServerInv st) : ServerInv (handleDisconnect st sid).1 := by
  obtain ⟨hex, hok, hso, hkeys⟩ := h
  have hnd := roomKeys_nodup hkeys
  unfold handleDisconnect
  cases hsess : (st.sessions sid).roomId with
  | none => exact ⟨hex, hok, hso, hkeys⟩
  | some prev =>
    dsimp only
    cases hleft : (leaveRoom st.chat sid prev).2 with
    | some leftUser =>
      dsimp only
      exact ⟨@leaveRoom_exclusive st.chat sid prev hnd hex,
             @leaveRoom_ownerOk st.chat sid prev hok,
             @leaveRoom_sessOk st.sessions st.chat sid prev hso,
             by unfold RoomKeys; rw [leaveRoom_keys]; exact hkeys⟩
    | none =>
      dsimp only
      exact ⟨@leaveRoom_exclusive st.chat sid prev hnd hex,
             @leaveRoom_ownerOk st.chat sid prev hok,
             @leaveRoom_sessOk st.sessions st.chat sid prev hso,
             by unfold RoomKeys; rw [leaveRoom_keys]; exact hkeys⟩

theorem serverInv_stepState {st : ServerState} (h : ServerInv st)
    (e : ClientEvent) : ServerInv (stepState st e) := by
  have hbump : ServerInv { st with clock := st.clock + 1 } := h
  unfold stepState handleEvent
  cases e with
  | joinRoom sid u r => exact serverInv_handleJoinRoom hbump
  | sendMessage sid u m r => exact serverInv_handleSendMessage hbump
  | typing sid u r => rw [handleTyping_state]; exact hbump
  | stopTyping sid r => rw [handleStopTyping_state]; exact hbump
  | getRooms sid => exact hbump
  | clearChat sid r => exact serverInv_handleClearChat hbump
  | disconnect sid => exact serverInv_handleDisconnect hbump

theorem serverInv_initial : ServerInv initialState := by
  refine ⟨?_, ?_, ?_, ?_⟩
  · intro c
    show occurs initialChat.rooms c ≤ 1
    simp [initialChat, initialRoom, occurs, occursIn]
  · intro q hq oid hoid
    have hq' : q = ("room1", initialRoom "Room 1")
        ∨ q = ("room2", initialRoom "Room 2")
        ∨ q = ("room3", initialRoom "Room 3") := by
      simpa [initialState, initialChat] using hq
    rcases hq' with rfl | rfl | rfl <;> simp [initialRoom] at hoid
  · intro q hq u hu
    have hq' : q = ("room1", initialRoom "Room 1")
        ∨ q = ("room2", initialRoom "Room 2")
        ∨ q = ("room3", initialRoom "Room 3") := by
      simpa [initialState, initialChat] using hq
    rcases hq' with rfl | rfl | rfl <;> simp [initialRoom] at hu
  · show RoomKeys initialChat.rooms
    rfl

theorem serverInv_foldl (es : List ClientEvent) :
    ∀ st, ServerInv st → ServerInv (es.foldl stepState st) := by
  induction es with
  | nil => intro st h; exact h
  | cons e es ih =>
    intro st h
    rw [List.foldl_cons]
    exact ih _ (serverInv_stepState h e)

theorem serverInv_run (es : List ClientEvent) : ServerInv (run es) :=
  serverInv_foldl es initialState serverInv_initial

/-! ## Claim theorems -/

/-- C1: Global exclusivity — after any sequence of inbound events
    (joinRoom, sendMessage, typing, stopTyping, getRooms, clearChat,
    disconnect; leaving happens through disconnect and the implicit leave in
    joinRoom), a connection id occurs in the member sequence of at most one
    room — indeed at most once across all rooms. -/
theorem c1_global_exclusivity (es : List ClientEvent) (c : String) :
    occurs (run es).chat.rooms c ≤ 1 :=
  (serverInv_run es).1 c

/-- C2: Ownership invariant — in every reachable state, a room's stored
    owner is either null or the connection id of a member currently present
    in that room's users sequence. -/
theorem c2_owner_is_member (es : List ClientEvent) (k : String) (r : Room)
    (oid : String) (hmem : (k, r) ∈ (run es).chat.rooms)
    (hown : r.owner = some oid) :
    ∃ u, u ∈ r.users ∧ u.id = oid :=
  (serverInv_run es).2.1 (k, r) hmem oid hown

/-- The state of room1 after a single join, used to witness C2. -/
def roomAfterAliceJoin : Room :=
  { name := "Room 1",
    users := [{ id := "A", username := "alice", joinedAt := 1, isOwner := true }],
    messages := [], createdAt := 0, owner := some "A" }

theorem c2_owner_is_member_witness :
    ∃ u, u ∈ roomAfterAliceJoin.users ∧ u.id = "A" :=
  c2_owner_is_member [.joinRoom "A" "alice" "room1"] "room1"
    roomAfterAliceJoin "A" (by decide) (by decide)

/-- C9: Rooms persist when empty — the set of room keys is constant across
    every event sequence, and a `leaveRoom` call (the leave/disconnect path)
    never removes a room and never touches any room's message log. -/
theorem c9_rooms_persist :
    (∀ es : List ClientEvent,
        (run es).chat.rooms.map Prod.fst = ["room1", "room2", "room3"])
    ∧ (∀ (st : ChatState) (uid rid k : String),
        ((leaveRoom st uid rid).1).rooms.map Prod.fst = st.rooms.map Prod.fst
        ∧ (lookupRoom ((leaveRoom st uid rid).1).rooms k).map Room.messages
            = (lookupRoom st.rooms k).map Room.messages) :=
  ⟨fun es => (serverInv_run es).2.2.2,
   fun st uid rid k => ⟨leaveRoom_keys st uid rid, leaveRoom_messages st uid rid k⟩⟩

theorem departedRoom_owner_cases {room : Room} {uid : String}
    (hown : room.owner = some uid) :
    (removeFirstById room.users uid = []
      → (departedRoom room uid).owner = none ∧ (departedRoom room uid).users = [])
    ∧ (∀ u rest, removeFirstById room.users uid = u :: rest
      → (departedRoom room uid).owner = some u.id
        ∧ (departedRoom room uid).users = { u with isOwner := true } :: rest) := by
  constructor
  · intro hnil
    simp only [departedRoom, hnil]
    rw [if_pos (by simp [hown])]
    exact ⟨rfl, rfl⟩
  · intro u rest hcons
    simp only [departedRoom, hcons]
    rw [if_pos (by simp [hown])]
    exact ⟨rfl, rfl⟩

/-- C3: Ownership succession — when the member whose connection id equals
    the room's stored owner leaves via `leaveRoom`, the head of the remaining
    member sequence (the earliest-joined remaining member) becomes the new
    owner with its `isOwner` flag set true; if no members remain the owner
    becomes null; the room persists and its message history is untouched. -/
theorem c3_owner_leave_succession (st : ChatState) (uid rid : String)
    (room : Room)
    (hlk : lookupRoom st.rooms rid = some room)
    (hown : room.owner = some uid)
    (hmem : (findById room.users uid).isSome) :
    ∃ room', lookupRoom ((leaveRoom st uid rid).1).rooms rid = some room'
      ∧ room'.messages = room.messages
      ∧ (removeFirstById room.users uid = []
          → room'.owner = none ∧ room'.users = [])
      ∧ (∀ u rest, removeFirstById room.users uid = u :: rest
          → room'.owner = some u.id
            ∧ room'.users = { u with isOwner := true } :: rest) := by
  obtain ⟨user, hfind⟩ := Option.isSome_iff_exists.mp hmem
  simp only [leaveRoom, hlk, hfind]
  refine ⟨departedRoom room uid, ?_, departedRoom_messages room uid,
    (departedRoom_owner_cases hown).1, (departedRoom_owner_cases hown).2⟩
  rw [lookupRoom_mapRoom_self, hlk, Option.map_some']

/-- The chat state after alice then bob join room1, used to witness C3. -/
def chatAliceBob : ChatState :=
  (run [.joinRoom "A" "alice" "room1", .joinRoom "B" "bob" "room1"]).chat

/-- The value of room1 in `chatAliceBob`. -/
def roomAliceBob : Room :=
  { name := "Room 1",
    users := [{ id := "A", username := "alice", joinedAt := 1, isOwner := true },
              { id := "B", username := "bob", joinedAt := 2, isOwner := false }],
    messages := [], createdAt := 0, owner := some "A" }

theorem c3_owner_leave_succession_witness :
    ∃ room', lookupRoom ((leaveRoom chatAliceBob "A" "room1").1).rooms "room1"
        = some room'
      ∧ room'.messages = roomAliceBob.messages
      ∧ (removeFirstById roomAliceBob.users "A" = []
          → room'.owner = none ∧ room'.users = [])
      ∧ (∀ u rest, removeFirstById roomAliceBob.users "A" = u :: rest
          → room'.owner = some u.id
            ∧ room'.users = { u with isOwner := true } :: rest) :=
  c3_owner_leave_succession chatAliceBob "A" "room1" roomAliceBob
    (by decide) (by decide) (by decide)

/-- C8: Join ownership assignment — a `joinRoom` against an existing room
    succeeds, appends the new member after removing any stale occurrence, and
    assigns ownership: owner of an ownerless room becomes the joiner (flag
    true), a stored owner id equal to the joining connection id restores the
    flag (rejoin), and otherwise the flag is false and the owner unchanged. -/
theorem c8_join_ownership (st : ChatState) (uid un rid : String) (now : Nat)
    (room0 : Room)
    (hlk : lookupRoom st.rooms rid = some room0) :
    (joinRoom st uid un rid now).1 = true
    ∧ ∃ r', lookupRoom ((joinRoom st uid un rid now).2).rooms rid = some r'
        ∧ r'.users = removeFirstById room0.users uid
            ++ [joinUser room0 uid un now]
        ∧ (room0.owner = none
            → r'.owner = some uid ∧ (joinUser room0 uid un now).isOwner = true)
        ∧ (room0.owner = some uid
            → r'.owner = some uid ∧ (joinUser room0 uid un now).isOwner = true)
        ∧ (∀ o, room0.owner = some o → o ≠ uid
            → r'.owner = some o ∧ (joinUser room0 uid un now).isOwner = false) := by
  have h2 := @lookupRoom_joinRooms_self st.rooms room0 uid un rid now hlk
  constructor
  · simp only [joinRoom, hlk]
  · refine ⟨{ room0 with
        owner := if room0.owner.isNone then some uid else room0.owner,
        users := removeFirstById room0.users uid
                   ++ [joinUser room0 uid un now] }, ?_, rfl, ?_, ?_, ?_⟩
    · simp only [joinRoom, hlk]
      exact h2
    · intro hnone
      constructor
      · simp [hnone]
      · simp [joinUser, hnone]
    · intro hself
      constructor
      · simp [hself]
      · simp [joinUser, hself]
    · intro o ho hne
      constructor
      · simp [ho]
      · simp [joinUser, ho, Option.isNone_iff_eq_none, beq_eq_false_iff_ne.mpr,
          hne]

theorem c8_join_ownership_witness :
    (joinRoom initialChat "A" "alice" "room1" 5).1 = true
    ∧ ∃ r', lookupRoom ((joinRoom initialChat "A" "alice" "room1" 5).2).rooms
          "room1" = some r'
        ∧ r'.users = removeFirstById (initialRoom "Room 1").users "A"
            ++ [joinUser (initialRoom "Room 1") "A" "alice" 5]
        ∧ ((initialRoom "Room 1").owner = none
            → r'.owner = some "A"
              ∧ (joinUser (initialRoom "Room 1") "A" "alice" 5).isOwner = true)
        ∧ ((initialRoom "Room 1").owner = some "A"
            → r'.owner = some "A"
              ∧ (joinUser (initialRoom "Room 1") "A" "alice" 5).isOwner = true)
        ∧ (∀ o, (initialRoom "Room 1").owner = some o → o ≠ "A"
            → r'.owner = some o
              ∧ (joinUser (initialRoom "Room 1") "A" "alice" 5).isOwner = false) :=
  c8_join_ownership initialChat "A" "alice" "room1" 5 (initialRoom "Room 1")
    (by decide)

/-! ## The retention bound (C4) -/

theorem takeLast_length_le (l : List α) (n : Nat) : (takeLast l n).length ≤ n := by
  rw [takeLast, List.length_drop]
  omega

theorem takeLast_eq_self {l : List α} {n : Nat} (h : l.length ≤ n) :
    takeLast l n = l := by
  rw [takeLast, Nat.sub_eq_zero_of_le h, List.drop_zero]

theorem appendBounded_eq_takeLast (l : List Message) (m : Message) :
    appendBounded l m = takeLast (l ++ [m]) messageLimit := by
  simp only [appendBounded]
  by_cases hlen : (l ++ [m]).length > messageLimit
  · rw [if_pos hlen, takeLast]
  · rw [if_neg hlen, takeLast, Nat.sub_eq_zero_of_le (le_of_not_lt hlen),
      List.drop_zero]

theorem appendBounded_length_le (l : List Message) (m : Message) :
    (appendBounded l m).length ≤ messageLimit := by
  rw [appendBounded_eq_takeLast]
  exact takeLast_length_le _ _

theorem takeLast_append_of_le {b : List α} {n : Nat} (h : n ≤ b.length)
    (a : List α) : takeLast (a ++ b) n = takeLast b n := by
  rw [takeLast, takeLast, List.length_append,
    show a.length + b.length - n = a.length + (b.length - n) by omega,
    List.drop_append]

theorem takeLast_takeLast (a : List α) {m n : Nat} (h : m ≤ n) :
    takeLast (takeLast a n) m = takeLast a m := by
  rw [takeLast, takeLast, takeLast, List.length_drop, List.drop_drop]
  congr 1
  omega

theorem takeLast_append_long {b : List α} {n : Nat} (h : b.length ≤ n)
    (x : List α) : takeLast (x ++ b) n = takeLast x (n - b.length) ++ b := by
  rw [takeLast, takeLast, List.length_append,
    List.drop_append_eq_append_drop,
    show x.length + b.length - n - x.length = 0 by omega, List.drop_zero]
  congr 2
  omega

theorem takeLast_append_takeLast (a b : List α) (n : Nat) :
    takeLast (takeLast a n ++ b) n = takeLast (a ++ b) n := by
  by_cases hb : n ≤ b.length
  · rw [takeLast_append_of_le hb, takeLast_append_of_le hb]
  · have hb' : b.length ≤ n := le_of_not_le hb
    rw [takeLast_append_long hb', takeLast_append_long hb',
      takeLast_takeLast a (by omega)]

theorem foldl_appendBounded (msgs : List Message) :
    ∀ init : List Message, init.length ≤ messageLimit →
      msgs.foldl appendBounded init = takeLast (init ++ msgs) messageLimit := by
  induction msgs with
  | nil =>
    intro init h
    rw [List.foldl_nil, List.append_nil, takeLast_eq_self h]
  | cons m ms ih =>
    intro init h
    rw [List.foldl_cons,
      ih (appendBounded init m) (appendBounded_length_le init m),
      appendBounded_eq_takeLast, takeLast_append_takeLast,
      ← List.append_cons]

/-- The per-room retention bound, as a predicate on the registry. -/
def MsgOk (rs : List (String × Room)) : Prop :=
  ∀ q ∈ rs, (Prod.snd q).messages.length ≤ messageLimit

theorem msgOk_mapRoom {rs : List (String × Room)} {rid : String}
    {f : Room → Room} (h : MsgOk rs)
    (hf : ∀ r, ((f r).messages.length ≤ messageLimit
      ∨ (f r).messages = r.messages)) :
    MsgOk (mapRoom rs rid f) := by
  intro q hq
  obtain ⟨k, v⟩ := q
  rcases mem_mapRoom_elim hq with ⟨r, hr, hcase⟩
  rcases hcase with ⟨hk, hval⟩ | ⟨hk, hval⟩
  · subst hval
    rcases hf r with hf' | hf'
    · exact hf'
    · show (f r).messages.length ≤ messageLimit
      rw [hf']
      exact h (k, r) hr
  · subst hval
    exact h (k, v) hr

theorem msgOk_leaveRoom {st : ChatState} {uid rid : String}
    (h : MsgOk st.rooms) : MsgOk ((leaveRoom st uid rid).1).rooms := by
  cases hlk : lookupRoom st.rooms rid with
  | none => simp only [leaveRoom, hlk]; exact h
  | some room =>
    cases hfind : findById room.users uid with
    | none => simp only [leaveRoom, hlk, hfind]; exact h
    | some user =>
      simp only [leaveRoom, hlk, hfind]
      refine msgOk_mapRoom h (fun r => Or.inl ?_)
      rw [departedRoom_messages]
      exact h (rid, room) (mem_of_lookupRoom hlk)

theorem msgOk_joinRoom {st : ChatState} {uid un rid : String} {now : Nat}
    (h : MsgOk st.rooms) : MsgOk ((joinRoom st uid un rid now).2).rooms := by
  cases hjoin : lookupRoom st.rooms rid with
  | none => simp only [joinRoom, hjoin]; exact h
  | some room0 =>
    simp only [joinRoom, hjoin]
    intro q hq
    obtain ⟨k, v⟩ := q
    have hq2 : (k, v) ∈ joinRooms st.rooms room0 uid un rid now := hq
    rcases mem_joinRooms_elim hq2 with ⟨r, hr, hmsgs, _⟩
    show v.messages.length ≤ messageLimit
    rw [hmsgs]
    exact h (k, r) hr

theorem msgOk_handleJoinRoom {st : ServerState} {sid un rid : String}
    (h : MsgOk st.chat.rooms) :
    MsgOk ((handleJoinRoom st sid un rid).1).chat.rooms := by
  simp only [handleJoinRoom]
  by_cases hval : (un == "" || rid == "") = true
  · rw [if_pos hval]
    exact h
  · rw [if_neg hval]
    cases hsess : (st.sessions sid).roomId with
    | none =>
      by_cases hjb : (joinRoom st.chat sid un rid st.clock).1 = true
      · rw [if_pos hjb]
        exact msgOk_joinRoom h
      · rw [if_neg hjb]
        exact h
    | some prev =>
      have h1 := @msgOk_leaveRoom st.chat sid prev h
      dsimp only
      cases hleft : (leaveRoom st.chat sid prev).2 with
      | some leftUser =>
        dsimp only
        by_cases hjb : (joinRoom (leaveRoom st.chat sid prev).1 sid un rid
            st.clock).1 = true
        · rw [if_pos hjb]
          exact msgOk_joinRoom h1
        · rw [if_neg hjb]
          exact h1
      | none =>
        dsimp only
        by_cases hjb : (joinRoom (leaveRoom st.chat sid prev).1 sid un rid
            st.clock).1 = true
        · rw [if_pos hjb]
          exact msgOk_joinRoom h1
        · rw [if_neg hjb]
          exact h1

theorem msgOk_handleSendMessage {st : ServerState} {sid un msg rid : String}
    (h : MsgOk st.chat.rooms) :
    MsgOk ((handleSendMessage st sid un msg rid).1).chat.rooms := by
  unfold handleSendMessage
  by_cases hval : (un == "" || msg == "" || rid == "") = true
  · rw [if_pos hval]
    exact h
  · rw [if_neg hval]
    cases hlk : lookupRoom st.chat.rooms rid with
    | none => exact h
    | some room =>
      dsimp only
      exact msgOk_mapRoom h (fun r => Or.inl (appendBounded_length_le _ _))

theorem msgOk_handleClearChat {st : ServerState} {sid rid : String}
    (h : MsgOk st.chat.rooms) :
    MsgOk ((handleClearChat st sid rid).1).chat.rooms := by
  unfold handleClearChat
  by_cases hval : (rid == "") = true
  · rw [if_pos hval]
    exact h
  · rw [if_neg hval]
    cases hlk : lookupRoom st.chat.rooms rid with
    | none => exact h
    | some room =>
      dsimp only
      by_cases hown : (room.owner == some sid) = true
      · rw [if_pos hown]
        show MsgOk (mapRoom st.chat.rooms rid (fun r => { r with messages := [] }))
        exact msgOk_mapRoom h (fun r => Or.inl (Nat.zero_le _))
      · rw [if_neg hown]
        exact h

theorem msgOk_handleDisconnect {st : ServerState} {sid : String}
    (h : MsgOk st.chat.rooms) :
    MsgOk ((handleDisconnect st sid).1).chat.rooms := by
  unfold handleDisconnect
  cases hsess : (st.sessions sid).roomId with
  | none => exact h
  | some prev =>
    dsimp only
    cases hleft : (leaveRoom st.chat sid prev).2 with
    | some leftUser => exact @msgOk_leaveRoom st.chat sid prev h
    | none => exact @msgOk_leaveRoom st.chat sid prev h

theorem msgOk_stepState {st : ServerState} (h : MsgOk st.chat.rooms)
    (e : ClientEvent) : MsgOk (stepState st e).chat.rooms := by
  have hbump : MsgOk ({ st with clock := st.clock + 1 } : ServerState).chat.rooms := h
  unfold stepState handleEvent
  cases e with
  | joinRoom sid u r => exact msgOk_handleJoinRoom hbump
  | sendMessage sid u m r => exact msgOk_handleSendMessage hbump
  | typing sid u r => rw [handleTyping_state]; exact hbump
  | stopTyping sid r => rw [handleStopTyping_state]; exact hbump
  | getRooms sid => exact hbump
  | clearChat sid r => exact msgOk_handleClearChat hbump
  | disconnect sid => exact msgOk_handleDisconnect hbump

theorem msgOk_initial : MsgOk initialState.chat.rooms := by
  intro q hq
  have hq' : q = ("room1", initialRoom "Room 1")
      ∨ q = ("room2", initialRoom "Room 2")
      ∨ q = ("room3", initialRoom "Room 3") := by
    simpa [initialState, initialChat] using hq
  rcases hq' with rfl | rfl | rfl <;> simp [initialRoom, messageLimit]

theorem msgOk_run (es : List ClientEvent) : MsgOk (run es).chat.rooms := by
  rw [run]
  have hgen : ∀ st : ServerState, MsgOk st.chat.rooms
      → MsgOk (es.foldl stepState st).chat.rooms := by
    induction es with
    | nil => intro st h; exact h
    | cons e es ih =>
      intro st h
      rw [List.foldl_cons]
      exact ih _ (msgOk_stepState h e)
  exact hgen initialState msgOk_initial

/-- C4: Retention bound — in every reachable state every room's message log
    has length at most the configured limit (200), and a sequence of
    `sendMessage` appends through the bounded push retains exactly the last
    200 appended messages in append order (FIFO eviction). -/
theorem c4_retention_bound :
    (∀ es : List ClientEvent, ∀ q ∈ (run es).chat.rooms,
        (Prod.snd q).messages.length ≤ messageLimit)
    ∧ (∀ msgs : List Message,
        msgs.foldl appendBounded [] = takeLast msgs messageLimit
        ∧ (msgs.foldl appendBounded []).length ≤ messageLimit) :=
  ⟨fun es q hq => msgOk_run es q hq,
   fun msgs =>
    ⟨by rw [foldl_appendBounded msgs [] (by simp [messageLimit]),
        List.nil_append],
     by rw [foldl_appendBounded msgs [] (by simp [messageLimit])]
        exact takeLast_length_le _ _⟩⟩

theorem c4_retention_bound_witness :
    (initialRoom "Room 1").messages.length ≤ messageLimit :=
  c4_retention_bound.1 [] ("room1", initialRoom "Room 1") (by decide)

/-- C7: clearChat is owner-only — on an existing room, a sender whose id is
    not the stored owner gets the Forbidden error on its own channel and the
    whole state is untouched; the owner empties the message log (members and
    owner untouched, other rooms untouched) and `chatCleared` is broadcast to
    the room. -/
theorem c7_clearchat_owner_only (st : ServerState) (sid rid : String)
    (room : Room) (hrid : rid ≠ "")
    (hlk : lookupRoom st.chat.rooms rid = some room) :
    (room.owner ≠ some sid →
        handleClearChat st sid rid
          = (st, [⟨Target.sender sid, "error", "Only room owner can clear chat"⟩]))
    ∧ (room.owner = some sid →
        (handleClearChat st sid rid).2
          = [⟨Target.room rid, "chatCleared", ((st.sessions sid).username).getD ""⟩]
        ∧ (∃ r', lookupRoom ((handleClearChat st sid rid).1).chat.rooms rid
              = some r'
            ∧ r'.messages = [] ∧ r'.users = room.users ∧ r'.owner = room.owner)
        ∧ (∀ k, k ≠ rid →
            lookupRoom ((handleClearChat st sid rid).1).chat.rooms k
              = lookupRoom st.chat.rooms k)) := by
  have hree : (rid == "") = false := beq_eq_false_iff_ne.mpr hrid
  constructor
  · intro hno
    unfold handleClearChat
    rw [hree]
    simp only [Bool.false_eq_true, if_false, hlk]
    rw [show (room.owner == some sid) = false from beq_eq_false_iff_ne.mpr hno]
    simp only [Bool.false_eq_true, if_false]
  · intro hyes
    unfold handleClearChat
    rw [hree]
    simp only [Bool.false_eq_true, if_false, hlk]
    rw [show (room.owner == some sid) = true by simp [hyes]]
    simp only [if_true]
    refine ⟨trivial, ⟨{ room with messages := [] }, ?_, rfl, rfl, rfl⟩, ?_⟩
    · rw [lookupRoom_mapRoom_self, hlk, Option.map_some']
    · intro k hk
      exact lookupRoom_mapRoom_ne hk _ _

theorem c7_clearchat_owner_only_witness :
    (roomAfterAliceJoin.owner ≠ some "B" →
        handleClearChat (run [.joinRoom "A" "alice" "room1"]) "B" "room1"
          = (run [.joinRoom "A" "alice" "room1"],
             [⟨Target.sender "B", "error", "Only room owner can clear chat"⟩]))
    ∧ (roomAfterAliceJoin.owner = some "B" →
        (handleClearChat (run [.joinRoom "A" "alice" "room1"]) "B" "room1").2
          = [⟨Target.room "room1", "chatCleared",
              (((run [.joinRoom "A" "alice" "room1"]).sessions "B").username).getD ""⟩]
        ∧ (∃ r', lookupRoom ((handleClearChat (run [.joinRoom "A" "alice" "room1"])
              "B" "room1").1).chat.rooms "room1" = some r'
            ∧ r'.messages = [] ∧ r'.users = roomAfterAliceJoin.users
            ∧ r'.owner = roomAfterAliceJoin.owner)
        ∧ (∀ k, k ≠ "room1" →
            lookupRoom ((handleClearChat (run [.joinRoom "A" "alice" "room1"])
              "B" "room1").1).chat.rooms k
              = lookupRoom (run [.joinRoom "A" "alice" "room1"]).chat.rooms k)) :=
  c7_clearchat_owner_only (run [.joinRoom "A" "alice" "room1"]) "B" "room1"
    roomAfterAliceJoin (by decide) (by decide)

/-- C10: the stored and broadcast body of a valid sendMessage equals the
    supplied message with leading and trailing whitespace removed; the
    validation only rejects the empty string, so a whitespace-only message
    passes and is stored with an empty body (see the witness). -/
theorem c10_trim_message (st : ServerState) (sid un msg rid : String)
    (room : Room)
    (hun : un ≠ "") (hmsg : msg ≠ "") (hrid : rid ≠ "")
    (hlk : lookupRoom st.chat.rooms rid = some room) :
    (handleSendMessage st sid un msg rid).2
      = [⟨Target.room rid, "newMessage", jsTrim msg⟩]
    ∧ ∃ r', lookupRoom ((handleSendMessage st sid un msg rid).1).chat.rooms rid
          = some r'
        ∧ r'.messages
            = appendBounded room.messages (sendMessageObj sid un msg st.clock) := by
  have hcond : (un == "" || msg == "" || rid == "") = false := by
    simp [hun, hmsg, hrid]
  unfold handleSendMessage
  rw [hcond]
  simp only [Bool.false_eq_true, if_false, hlk]
  refine ⟨rfl, ⟨{ room with messages := appendBounded room.messages (sendMessageObj sid un msg st.clock) }, ?_, rfl⟩⟩
  rw [lookupRoom_mapRoom_self, hlk, Option.map_some']

theorem c10_trim_message_witness :
    jsTrim " " = ""
    ∧ ((handleSendMessage initialState "A" "alice" " " "room1").2
        = [⟨Target.room "room1", "newMessage", jsTrim " "⟩]
      ∧ ∃ r', lookupRoom ((handleSendMessage initialState "A" "alice" " "
            "room1").1).chat.rooms "room1" = some r'
          ∧ r'.messages = appendBounded (initialRoom "Room 1").messages
              (sendMessageObj "A" "alice" " " initialState.clock)) :=
  ⟨by decide,
   c10_trim_message initialState "A" "alice" " " "room1" (initialRoom "Room 1")
     (by decide) (by decide) (by decide) (by decide)⟩

/-- Counterexample to C5 as stated: in the initial state socket "A" is in no
    room, yet its sendMessage to room1 is acted on — the message is appended
    to room1's log and `newMessage` is broadcast, instead of being silently
    ignored. -/
theorem c5_counterexample :
    (initialState.sessions "A").roomId = none
    ∧ (handleSendMessage initialState "A" "alice" "hi" "room1").2
        = [⟨Target.room "room1", "newMessage", "hi"⟩]
    ∧ (lookupRoom ((handleSendMessage initialState "A" "alice" "hi"
          "room1").1).chat.rooms "room1").map (fun r => r.messages.length)
        = some 1 := by
  decide

/-- C5 (amended): the main `sendMessage` handler gates only on field presence
    and room existence — the sender's current room is never consulted — and
    invalid or unknown-room messages produce an `error` event to the sender
    instead of being silently ignored; on the valid path the trimmed message
    is appended to the addressed room and `newMessage` broadcast, whatever
    the sender's session state says. -/
theorem c5_send_gating_amended (st : ServerState) (sid un msg rid : String) :
    ((un = "" ∨ msg = "" ∨ rid = "") →
        handleSendMessage st sid un msg rid
          = (st, [⟨Target.sender sid, "error", "Missing required fields"⟩]))
    ∧ (un ≠ "" → msg ≠ "" → rid ≠ "" →
        lookupRoom st.chat.rooms rid = none →
        handleSendMessage st sid un msg rid
          = (st, [⟨Target.sender sid, "error", "Room not found"⟩]))
    ∧ (∀ room, un ≠ "" → msg ≠ "" → rid ≠ "" →
        lookupRoom st.chat.rooms rid = some room →
        (handleSendMessage st sid un msg rid).2
          = [⟨Target.room rid, "newMessage", jsTrim msg⟩]
        ∧ lookupRoom ((handleSendMessage st sid un msg rid).1).chat.rooms rid
            = some { room with messages := appendBounded room.messages (sendMessageObj sid un msg st.clock) }) := by
  refine ⟨?_, ?_, ?_⟩
  · intro hbad
    unfold handleSendMessage
    rw [if_pos (show (un == "" || msg == "" || rid == "") = true by
      rcases hbad with h | h | h <;> simp [h])]
  · intro h1 h2 h3 hnone
    unfold handleSendMessage
    rw [if_neg (show ¬ (un == "" || msg == "" || rid == "") = true by
      simp [h1, h2, h3])]
    simp only [hnone]
  · intro room h1 h2 h3 hsome
    unfold handleSendMessage
    rw [if_neg (show ¬ (un == "" || msg == "" || rid == "") = true by
      simp [h1, h2, h3])]
    simp only [hsome]
    refine ⟨rfl, ?_⟩
    rw [lookupRoom_mapRoom_self, hsome, Option.map_some']

theorem c5_send_gating_amended_witness :
    handleSendMessage initialState "A" "" "hi" "room1"
      = (initialState, [⟨Target.sender "A", "error", "Missing required fields"⟩])
    ∧ handleSendMessage initialState "A" "alice" "hi" "nope"
      = (initialState, [⟨Target.sender "A", "error", "Room not found"⟩])
    ∧ (handleSendMessage initialState "A" "alice" "hi" "room1").2
      = [⟨Target.room "room1", "newMessage", jsTrim "hi"⟩] :=
  ⟨(c5_send_gating_amended initialState "A" "" "hi" "room1").1 (Or.inl rfl),
   (c5_send_gating_amended initialState "A" "alice" "hi" "nope").2.1
     (by decide) (by decide) (by decide) (by decide),
   ((c5_send_gating_amended initialState "A" "alice" "hi" "room1").2.2
     (initialRoom "Room 1") (by decide) (by decide) (by decide) (by decide)).1⟩

theorem lookupRoom_leaveRoom_none {st : ChatState} {uid prev rid : String}
    (h : lookupRoom st.rooms rid = none) :
    lookupRoom ((leaveRoom st uid prev).1).rooms rid = none := by
  have hm := leaveRoom_messages st uid prev rid
  rw [h] at hm
  exact Option.map_eq_none'.mp hm

/-- Counterexample to C6 as stated: after "A" joins room1 (membership 1), a
    joinRoom to the nonexistent room "nope" fails with RoomNotFound — but
    room1's membership has dropped to 0: the implicit leave of the previous
    room ran before the lookup, so the failing join did NOT leave the
    sender's previous membership unchanged. -/
theorem c6_counterexample :
    (lookupRoom (run [.joinRoom "A" "alice" "room1"]).chat.rooms "room1").map
        (fun r => r.users.length) = some 1
    ∧ lookupRoom (run [.joinRoom "A" "alice" "room1"]).chat.rooms "nope" = none
    ∧ (lookupRoom (run [.joinRoom "A" "alice" "room1",
          .joinRoom "A" "alice" "nope"]).chat.rooms "room1").map
        (fun r => r.users.length) = some 0 := by
  decide

/-- C6 (amended): every failing operation emits an `error` event to the
    offending connection only and leaves the shared state exactly as it was —
    invalid joinRoom, invalid sendMessage, sendMessage to an unknown room,
    clearChat on an unknown room, and Forbidden clearChat are all pure —
    EXCEPT a joinRoom failing with RoomNotFound: the implicit leave of the
    sender's previous room runs before the room lookup, so the sender has
    already been removed from (and deregistered in) its previous room; the
    session fields and everything beyond that leave are unchanged and the
    error goes to the sender only. -/
theorem c6_error_atomicity_amended (st : ServerState) (sid un msg rid : String) :
    ((un = "" ∨ rid = "") →
        handleJoinRoom st sid un rid
          = (st, [⟨Target.sender sid, "error",
                   "Username and room ID are required"⟩]))
    ∧ ((un = "" ∨ msg = "" ∨ rid = "") →
        handleSendMessage st sid un msg rid
          = (st, [⟨Target.sender sid, "error", "Missing required fields"⟩]))
    ∧ (un ≠ "" → msg ≠ "" → rid ≠ "" →
        lookupRoom st.chat.rooms rid = none →
        handleSendMessage st sid un msg rid
          = (st, [⟨Target.sender sid, "error", "Room not found"⟩]))
    ∧ (rid ≠ "" → lookupRoom st.chat.rooms rid = none →
        handleClearChat st sid rid
          = (st, [⟨Target.sender sid, "error", "Room not found"⟩]))
    ∧ (∀ room, rid ≠ "" → lookupRoom st.chat.rooms rid = some room →
        room.owner ≠ some sid →
        handleClearChat st sid rid
          = (st, [⟨Target.sender sid, "error",
                   "Only room owner can clear chat"⟩]))
    ∧ (un ≠ "" → rid ≠ "" → lookupRoom st.chat.rooms rid = none →
        (handleJoinRoom st sid un rid).1.sessions = st.sessions
        ∧ ((st.sessions sid).roomId = none →
            handleJoinRoom st sid un rid
              = (st, [⟨Target.sender sid, "error", "Room not found"⟩]))
        ∧ (∀ prev, (st.sessions sid).roomId = some prev →
            (handleJoinRoom st sid un rid).1.chat
              = (leaveRoom st.chat sid prev).1)) := by
  refine ⟨?_, ?_, ?_, ?_, ?_, ?_⟩
  · intro hbad
    unfold handleJoinRoom
    rw [if_pos (show (un == "" || rid == "") = true by
      rcases hbad with h | h <;> simp [h])]
  · intro hbad
    unfold handleSendMessage
    rw [if_pos (show (un == "" || msg == "" || rid == "") = true by
      rcases hbad with h | h | h <;> simp [h])]
  · intro h1 h2 h3 hnone
    unfold handleSendMessage
    rw [if_neg (show ¬ (un == "" || msg == "" || rid == "") = true by
      simp [h1, h2, h3])]
    simp only [hnone]
  · intro h1 hnone
    unfold handleClearChat
    rw [if_neg (show ¬ (rid == "") = true by simp [h1])]
    simp only [hnone]
  · intro room h1 hsome hno
    unfold handleClearChat
    rw [if_neg (show ¬ (rid == "") = true by simp [h1])]
    simp only [hsome]
    rw [show (room.owner == some sid) = false from beq_eq_false_iff_ne.mpr hno]
    simp only [Bool.false_eq_true, if_false]
  · intro hun hrid hnone
    simp only [handleJoinRoom]
    rw [if_neg (show ¬ (un == "" || rid == "") = true by simp [hun, hrid])]
    cases hsess : (st.sessions sid).roomId with
    | none =>
      have hfail : joinRoom st.chat sid un rid st.clock = (false, st.chat) := by
        simp only [joinRoom, hnone]
      dsimp only
      rw [hfail]
      simp only [Bool.false_eq_true, if_false]
      refine ⟨trivial, fun _ => rfl, ?_⟩
      intro prev hprev
      cases hprev
    | some prev =>
      have hfail : joinRoom (leaveRoom st.chat sid prev).1 sid un rid st.clock
          = (false, (leaveRoom st.chat sid prev).1) := by
        simp only [joinRoom, lookupRoom_leaveRoom_none hnone]
      dsimp only
      cases hleft : (leaveRoom st.chat sid prev).2 with
      | some leftUser =>
        dsimp only
        rw [hfail]
        simp only [Bool.false_eq_true, if_false]
        refine ⟨trivial, ?_, ?_⟩
        · intro hcontra
          cases hcontra
        · intro prev' hprev'
          have : prev = prev' := by injection hprev'
          rw [← this]
      | none =>
        dsimp only
        rw [hfail]
        simp only [Bool.false_eq_true, if_false]
        refine ⟨trivial, ?_, ?_⟩
        · intro hcontra
          cases hcontra
        · intro prev' hprev'
          have : prev = prev' := by injection hprev'
          rw [← this]

theorem c6_error_atomicity_amended_witness :
    handleJoinRoom initialState "A" "" "room1"
      = (initialState,
         [⟨Target.sender "A", "error", "Username and room ID are required"⟩])
    ∧ handleClearChat initialState "A" "nope"
      = (initialState, [⟨Target.sender "A", "error", "Room not found"⟩])
    ∧ handleJoinRoom initialState "A" "alice" "nope"
      = (initialState, [⟨Target.sender "A", "error", "Room not found"⟩]) :=
  ⟨(c6_error_atomicity_amended initialState "A" "" "x" "room1").1 (Or.inl rfl),
   (c6_error_atomicity_amended initialState "A" "x" "x" "nope").2.2.2.1
     (by decide) (by decide),
   ((c6_error_atomicity_amended initialState "A" "alice" "x" "nope").2.2.2.2.2
     (by decide) (by decide) (by decide)).2.1 (by decide)⟩
